import Mathlib

/-!
# pixrn: renaming photos after their capture time

A shallow embedding of `src/main.cc` and the properties of its rename planning.

Conventions of the embedding

* A C or C++ character string (`char*`, `std::string`, the text of an `fs::path`)
  is a `List Char`; the literal `"_1"` is written `"_1".toList`.
* `std::tm` is the record `Tm` of the six fields the program reads or writes, each a
  C `int` taken as an `Int`.
* The program calls three libraries.  Their functions are written out here from their
  published behaviour, restricted to the calls the program makes:
  `strftime` as in the BSD C library (the program reads `st_birthtime`, which exists
  on the BSD family and macOS only), `std::get_time` as in libc++, and
  `extension`, `replace_extension`, `parent_path`, `operator/`, `exists` and `rename`
  of Boost.Filesystem (version 3 path grammar, POSIX `rename`).
* The loop of `main` is the function `loop_body`, folded over the paths that the
  directory iterator yields, by `run`.
-/

namespace Pixrn

/-! ## Text -/

/-- Character string of the program: the characters up to the terminating NUL. -/
abbrev Text := List Char

/-- The decimal digit character of `d`, for `d < 10`: `'0' + d`. -/
def digitChar (d : Nat) : Char := Char.ofNat (48 + d)

/-- C `isdigit` in the "C" locale. -/
def isdigit (c : Char) : Bool := 48 ≤ c.toNat && c.toNat ≤ 57

/-- C `isspace` in the "C" locale: space, `\t`, `\n`, `\v`, `\f`, `\r`. -/
def isspace (c : Char) : Bool := c.toNat = 32 || (9 ≤ c.toNat && c.toNat ≤ 13)

/-- Digits of `n`, most significant first, pushed in front of `acc`; `fuel` bounds the
number of digits produced and `fuel > n` is always enough. -/
def decimalAux : Nat → Nat → Text → Text
  | 0, _, acc => acc
  | fuel + 1, n, acc =>
    if n / 10 = 0 then digitChar (n % 10) :: acc
    else decimalAux fuel (n / 10) (digitChar (n % 10) :: acc)

/-- The text `std::to_string` gives for an unsigned number: `printf`'s `%u`. -/
def decimal (n : Nat) : Text := decimalAux (n + 1) n []

/-! ## `std::tm` and `strftime` -/

/-- The fields of `std::tm` that the program uses. -/
structure Tm where
  tm_sec : Int
  tm_min : Int
  tm_hour : Int
  tm_mday : Int
  tm_mon : Int
  tm_year : Int
deriving DecidableEq, Repr

/-- BSD `strftime`'s `_conv(n, "%02d", ...)`: `sprintf` of an `int` in at least two
columns, zero-filled, the minus sign taking one of the columns. -/
def conv02 (n : Int) : Text :=
  if n < 0 then '-' :: decimal n.natAbs
  else if n < 10 then '0' :: decimal n.natAbs
  else decimal n.natAbs

/-- BSD `strftime`'s `_yconv(a, b, 1, 1, ...)`, the conversion behind `%Y` with
`a = tm_year` and `b = TM_YEAR_BASE = 1900`. The C operators `/` and `%` truncate
toward zero: `Int.tdiv` and `Int.tmod`. -/
def yconv (a b : Int) : Text :=
  let trail0 := Int.tmod a 100 + Int.tmod b 100
  let lead0 := Int.tdiv a 100 + Int.tdiv b 100 + Int.tdiv trail0 100
  let trail1 := Int.tmod trail0 100
  let lead := if trail1 < 0 ∧ lead0 > 0 then lead0 - 1
              else if lead0 < 0 ∧ trail1 > 0 then lead0 + 1 else lead0
  let trail := if trail1 < 0 ∧ lead0 > 0 then trail1 + 100
               else if lead0 < 0 ∧ trail1 > 0 then trail1 - 100 else trail1
  (if lead = 0 ∧ trail < 0 then "-0".toList else conv02 lead)
    ++ conv02 (if trail < 0 then -trail else trail)

/-- The call `std::strftime(buf, sizeof(buf), "%Y-%m-%d_%H-%M-%S", &time)`: the text
left in `buf`. (`buf` holds 64 bytes; every text of at most 63 characters fits, which
covers all field values of up to eight digits.) -/
def strftime (time : Tm) : Text :=
  yconv time.tm_year 1900 ++ '-' :: conv02 (time.tm_mon + 1) ++ '-' :: conv02 time.tm_mday
    ++ '_' :: conv02 time.tm_hour ++ '-' :: conv02 time.tm_min ++ '-' :: conv02 time.tm_sec

/-- Source `time_to_path(std::tm&)` (lines 58-62). -/
def time_to_path (time : Tm) : Text := strftime time

/-! ## `std::get_time` -/

/-- The loop of libc++'s `__get_up_to_n_digits` after its first digit: reads at most
`n` further digits into `r`. -/
def more_digits : Nat → Nat → Text → Nat × Text
  | 0, r, s => (r, s)
  | _ + 1, r, [] => (r, [])
  | n + 1, r, c :: cs =>
    if isdigit c then more_digits n (r * 10 + (c.toNat - 48)) cs else (r, c :: cs)

/-- libc++'s `__get_up_to_n_digits`: a first digit is required (`none` is failbit), then
up to `n - 1` more are taken. Gives the number read and the rest of the input. -/
def get_up_to_n_digits (n : Nat) : Text → Option (Nat × Text)
  | [] => none
  | c :: cs => if isdigit c then some (more_digits (n - 1) (c.toNat - 48) cs) else none

/-- One item of a `get_time` format. -/
inductive FmtItem where
  | conv (c : Char)
  | space
  | lit (c : Char)
deriving DecidableEq, Repr

/-- The format `"%Y:%m:%d %H:%M:%S"` of line 67, item by item. -/
def exif_format : List FmtItem :=
  [.conv 'Y', .lit ':', .conv 'm', .lit ':', .conv 'd', .space,
   .conv 'H', .lit ':', .conv 'M', .lit ':', .conv 'S']

/-- libc++'s `time_get::do_get` for the conversions of the format: the field is stored
only when the number was read and lies in the field's range; `none` is failbit. -/
def do_get (cmd : Char) (input : Text) (tm : Tm) : Option (Tm × Text) :=
  match get_up_to_n_digits (if cmd = 'Y' then 4 else 2) input with
  | none => none
  | some (t, rest) =>
    if cmd = 'Y' then some ({ tm with tm_year := (t : Int) - 1900 }, rest)
    else if cmd = 'm' then
      if 1 ≤ t ∧ t ≤ 12 then some ({ tm with tm_mon := (t : Int) - 1 }, rest) else none
    else if cmd = 'd' then
      if 1 ≤ t ∧ t ≤ 31 then some ({ tm with tm_mday := t }, rest) else none
    else if cmd = 'H' then
      if t ≤ 23 then some ({ tm with tm_hour := t }, rest) else none
    else if cmd = 'M' then
      if t ≤ 59 then some ({ tm with tm_min := t }, rest) else none
    else if cmd = 'S' then
      if t ≤ 60 then some ({ tm with tm_sec := t }, rest) else none
    else none

/-- libc++'s `time_get::get` over a format: the fields read before a failure stay
written, the others keep the value they had. The `Bool` is `true` when failbit is set. -/
def time_get : List FmtItem → Text → Tm → Tm × Bool
  | [], _, tm => (tm, false)
  | _ :: _, [], tm => (tm, true)
  | .conv cmd :: fmt, c :: cs, tm =>
    match do_get cmd (c :: cs) tm with
    | none => (tm, true)
    | some (tm', rest) => time_get fmt rest tm'
  | .space :: fmt, c :: cs, tm => time_get fmt ((c :: cs).dropWhile isspace) tm
  | .lit f :: fmt, c :: cs, tm =>
    if c.toUpper = f.toUpper then time_get fmt cs tm else (tm, true)

/-- The statement `ss >> std::get_time(&tm, "%Y:%m:%d %H:%M:%S")` of line 67: the stream's
sentry skips leading white space, then `time_get::get` runs. -/
def get_time (time_str : Text) (tm : Tm) : Tm × Bool :=
  time_get exif_format (time_str.dropWhile isspace) tm

/-- Source `time_to_path(char*)` (lines 64-69). `std::tm tm;` is not initialised:
`uninit` is what the object holds before `get_time` writes to it. The stream's fail
state is not looked at. -/
def time_to_path_str (uninit : Tm) (time_str : Text) : Text :=
  time_to_path (get_time time_str uninit).1

/-! ## Files, paths and the directory -/

/-- What libexif finds in a file: `exif_data_new_from_file` gives NULL (`no_data`),
or `exif_content_get_entry` gives NULL for `EXIF_TAG_DATE_TIME_ORIGINAL` (`no_entry`),
or `exif_entry_get_value` writes the entry's text into the buffer (`value`). -/
inductive ExifRead where
  | no_data
  | no_entry
  | value (text : Text)
deriving DecidableEq, Repr

/-- A regular file: its metadata, the local calendar time of its `st_birthtime`
(`none` when `stat` fails), and its bytes. -/
structure File where
  exif : ExifRead
  birthtime : Option Tm
  bytes : List Nat
deriving DecidableEq, Repr

/-- A directory entry is a regular file or something else (a directory). -/
inductive Node where
  | regular (f : File)
  | directory
deriving DecidableEq, Repr

/-- An `fs::path` of the form `parent / filename`. -/
structure Path where
  parent : Text
  filename : Text
deriving DecidableEq, Repr

/-- The file names present on disk, each with what it names. -/
abbrev Disk := List (Path × Node)

/-- The node a path names, if any (`fs::status`). -/
def fs_find (p : Path) : Disk → Option Node
  | [] => none
  | (q, n) :: d => if q = p then some n else fs_find p d

/-- Boost's `fs::exists`. -/
def fs_exists (p : Path) (d : Disk) : Bool := (fs_find p d).isSome

/-- The disk after the name `old_p` was given up for `new_p`: what `new_p` named before
is gone, what `old_p` named is now under `new_p`. -/
def replace_name (old_p new_p : Path) : Disk → Disk
  | [] => []
  | (q, n) :: d =>
    if q = new_p then replace_name old_p new_p d
    else if q = old_p then (new_p, n) :: replace_name old_p new_p d
    else (q, n) :: replace_name old_p new_p d

/-- Boost's `fs::rename` of a regular file, as POSIX `rename`: the same name is a no-op,
an existing file under the new name is replaced, a directory under the new name is an
error, and so is a missing source (`none`: the call throws). -/
def fs_rename (old_p new_p : Path) (d : Disk) : Option Disk :=
  match fs_find old_p d with
  | some (.regular _) =>
    if old_p = new_p then some d
    else match fs_find new_p d with
      | some .directory => none
      | _ => some (replace_name old_p new_p d)
  | _ => none

/-- The suffix of a file name that starts at its last dot, if it has a dot. -/
def from_last_dot : Text → Option Text
  | [] => none
  | c :: cs =>
    match from_last_dot cs with
    | some e => some e
    | none => if c = '.' then some (c :: cs) else none

/-- Boost's `path::extension` on a file name: empty for `.` and `..` and for a name
without a dot, otherwise the part from the last dot on. -/
def extension (filename : Text) : Text :=
  if filename = ['.'] ∨ filename = ['.', '.'] then []
  else (from_last_dot filename).getD []

/-- Boost's `path::replace_extension` on a file name: the old extension is erased, then
the new one is appended, with a dot put before it when it does not start with one. -/
def replace_extension (filename new_extension : Text) : Text :=
  let erased := filename.take (filename.length - (extension filename).length)
  match new_extension with
  | [] => erased
  | c :: cs => if c = '.' then erased ++ c :: cs else erased ++ '.' :: c :: cs

/-- Source lambda `make_path_from_stem` (lines 129-131). -/
def make_path_from_stem (old_path : Path) (stem : Text) : Path :=
  { parent := old_path.parent,
    filename := replace_extension stem (extension old_path.filename) }

/-! ## Resolving the time of a file -/

/-- Source `new_stem_from_stat` (lines 71-79); `none` is `std::terminate`. -/
def new_stem_from_stat (f : File) : Option Text :=
  match f.birthtime with
  | none => none
  | some time => some (time_to_path time)

/-- Source `new_stem_from_exif` (lines 81-96); `none` is `std::terminate`. -/
def new_stem_from_exif (uninit : Tm) (f : File) : Option Text :=
  match f.exif with
  | .no_data => new_stem_from_stat f
  | .no_entry => new_stem_from_stat f
  | .value text => some (time_to_path_str uninit text)

/-! ## The loop of `main` -/

/-- The table `new_paths` of line 122. A count is a `size_t`; it is at most one more
than the number of entries processed, so it is taken as a `Nat`. -/
abbrev ClaimTable := Path → Option Nat

/-- Lines 144-147: the final path for a tentative path and its count. -/
def final_path (new_path : Path) (stem : Text) (second : Nat) : Path :=
  if second > 1 then make_path_from_stem new_path (stem ++ '_' :: decimal second)
  else new_path

/-- Lines 142-147: the lookup-or-insert in `new_paths`, the bump of the count and the
choice of the final path. Gives the new table, the count and the final path. -/
def reserve (new_paths : ClaimTable) (disk : Disk) (new_path : Path) (stem : Text) :
    ClaimTable × Nat × Path :=
  let inserted := (new_paths new_path).isNone
  let emplaced := (new_paths new_path).getD 1
  let second := emplaced + (if !inserted || fs_exists new_path disk then 1 else 0)
  let table : ClaimTable := fun p => if p = new_path then some second else new_paths p
  (table, second, final_path new_path stem second)

/-- Record of one pass through lines 142-149: the entry, the tentative path it was
checked under, whether that path was new to the table, whether a file of that name was
on disk, the count after the bump, and the path given to `fs::rename`. -/
structure Plan where
  src : Path
  base : Path
  inserted : Bool
  on_disk : Bool
  count : Nat
  dst : Path
deriving DecidableEq, Repr

/-- The variables of `main` around its loop, with the record of what the loop did.
`plans` lists the passes through lines 142-147, `renames` the calls of `fs::rename`
that returned, both oldest first. `terminated` is set when `std::terminate` was reached
(by `new_stem_from_stat`, or by the exception of a failed `fs::rename`). -/
structure State where
  disk : Disk
  new_paths : ClaimTable
  num_files : Nat
  plans : List Plan
  renames : List (Path × Path)
  terminated : Bool

/-- The state before the loop of `main` (lines 122-123). -/
def State.initial (disk : Disk) : State :=
  { disk := disk, new_paths := fun _ => none, num_files := 0, plans := [], renames := [],
    terminated := false }

/-- The body of the loop of `main` (lines 125-150) for one directory entry.
`num_files` is a `uint32_t`. -/
def loop_body (uninit : Tm) (st : State) (dir_entry : Path) : State :=
  if st.terminated then st else
  match fs_find dir_entry st.disk with
  | some (.regular f) =>
    match new_stem_from_exif uninit f with
    | none => { st with terminated := true }
    | some stem =>
      let new_path := make_path_from_stem dir_entry (stem ++ "_1".toList)
      if new_path = dir_entry then st else
      let r := reserve st.new_paths st.disk new_path stem
      let plan : Plan :=
        { src := dir_entry, base := new_path, inserted := (st.new_paths new_path).isNone,
          on_disk := fs_exists new_path st.disk, count := r.2.1, dst := r.2.2 }
      match fs_rename dir_entry r.2.2 st.disk with
      | none =>
        { st with new_paths := r.1, plans := st.plans ++ [plan], terminated := true }
      | some disk =>
        { disk := disk, new_paths := r.1, num_files := (st.num_files + 1) % 2 ^ 32,
          plans := st.plans ++ [plan], renames := st.renames ++ [(dir_entry, r.2.2)],
          terminated := false }
  | _ => st

/-- The loop of `main` (lines 124-151) over the entries the directory iterator yields,
in the order it yields them. -/
def run (uninit : Tm) (entries : List Path) (st : State) : State :=
  entries.foldl (loop_body uninit) st

/-- The regular files on a disk. -/
def regular_files : Disk → List File
  | [] => []
  | (_, .regular f) :: d => f :: regular_files d
  | (_, .directory) :: d => regular_files d

/-! ## Definitions used in the statements -/

/-- The two-digit text of a number below 100. -/
def two (n : Nat) : Text := [digitChar (n / 10), digitChar (n % 10)]

/-- The four-digit text of a number below 10000. -/
def four (n : Nat) : Text := two (n / 100) ++ two (n % 100)

/-- The `std::tm` of a calendar time: `tm_year` counts from 1900, `tm_mon` from 0. -/
def calendar_tm (year month day hour minute second : Nat) : Tm :=
  { tm_sec := second, tm_min := minute, tm_hour := hour, tm_mday := day,
    tm_mon := (month : Int) - 1, tm_year := (year : Int) - 1900 }

/-- The shape `dddd-dd-dd_dd-dd-dd` of a stem, `d` a decimal digit. -/
def stem_shape : Text → Bool
  | [y1, y2, y3, y4, c1, m1, m2, c2, d1, d2, c3, h1, h2, c4, n1, n2, c5, s1, s2] =>
    isdigit y1 && isdigit y2 && isdigit y3 && isdigit y4 && c1 = '-' &&
    isdigit m1 && isdigit m2 && c2 = '-' && isdigit d1 && isdigit d2 && c3 = '_' &&
    isdigit h1 && isdigit h2 && c4 = '-' && isdigit n1 && isdigit n2 && c5 = '-' &&
    isdigit s1 && isdigit s2
  | _ => false

/-- The text `YYYY:MM:DD HH:MM:SS` of a calendar time, as Exif writes it. -/
def exif_text (year month day hour minute second : Nat) : Text :=
  four year ++ ':' :: two month ++ ':' :: two day ++ ' ' :: two hour ++ ':' :: two minute
    ++ ':' :: two second

/-- The text `YYYY-MM-DD_HH-MM-SS` of a calendar time. -/
def stem_text (year month day hour minute second : Nat) : Text :=
  four year ++ '-' :: two month ++ '-' :: two day ++ '_' :: two hour ++ '-' :: two minute
    ++ '-' :: two second

/-- Replaces a colon by a hyphen and a space by an underscore. -/
def to_stem_char (c : Char) : Char := if c = ':' then '-' else if c = ' ' then '_' else c

/-- A photo whose camera clock was never set: the capture-time entry reads
`0000:00:00 00:00:00`; the file was created on 2023-05-01 at 10:00:00. -/
def unset_clock_photo : File :=
  { exif := .value "0000:00:00 00:00:00".toList,
    birthtime := some (calendar_tm 2023 5 1 10 0 0), bytes := [] }

/-- What `path::extension` can give: nothing, or a dot followed by text without a dot. -/
def is_extension (e : Text) : Prop := e = [] ∨ ∃ r, e = '.' :: r ∧ '.' ∉ r

/-- The path `dir/stem_N.ext`: the stem, an underscore, the count in decimal, and the
extension. -/
def numbered (dir stem : Text) (n : Nat) (ext : Text) : Path :=
  { parent := dir, filename := stem ++ '_' :: decimal n ++ ext }

/-- The count that lines 142-143 leave for a path: one more than the count it had,
or 1 for a new path, or 2 for a new path that names a file on disk. -/
def count_after (new_paths : ClaimTable) (disk : Disk) (new_path : Path) : Nat :=
  (new_paths new_path).getD 1
    + (if !(new_paths new_path).isNone || fs_exists new_path disk then 1 else 0)

/-- The record of the pass that the loop makes for an entry with the given stem. -/
def plan_for (st : State) (dir_entry : Path) (stem : Text) : Plan :=
  { src := dir_entry,
    base := numbered dir_entry.parent stem 1 (extension dir_entry.filename),
    inserted := (st.new_paths
      (numbered dir_entry.parent stem 1 (extension dir_entry.filename))).isNone,
    on_disk := fs_exists (numbered dir_entry.parent stem 1 (extension dir_entry.filename))
      st.disk,
    count := count_after st.new_paths st.disk
      (numbered dir_entry.parent stem 1 (extension dir_entry.filename)),
    dst := numbered dir_entry.parent stem
      (count_after st.new_paths st.disk
        (numbered dir_entry.parent stem 1 (extension dir_entry.filename)))
      (extension dir_entry.filename) }

/-- The table after the pass for an entry with the given stem. -/
def table_for (st : State) (dir_entry : Path) (stem : Text) : ClaimTable :=
  fun p => if p = (plan_for st dir_entry stem).base
    then some (plan_for st dir_entry stem).count else st.new_paths p

/-- The number a text of digits stands for, continuing from `r`. -/
def read_digits (r : Nat) (s : Text) : Nat := s.foldl (fun r c => r * 10 + (c.toNat - 48)) r

/-- What the plans of a state have in common: each was made for the tentative path
`dir/stem_1.ext` of some entry, names `dir/stem_N.ext` for its count `N`, and the table
holds a count of at least `N` for the tentative path; a later plan for the same
tentative path has a larger count; the renames are among the planned destinations. -/
def plans_ok (st : State) : Prop :=
  (∀ pl ∈ st.plans, ∃ (e : Path) (s : Text), '.' ∉ s ∧
      pl.base = numbered e.parent s 1 (extension e.filename) ∧
      pl.dst = numbered e.parent s pl.count (extension e.filename) ∧
      ∃ c, st.new_paths pl.base = some c ∧ pl.count ≤ c) ∧
  st.plans.Pairwise (fun p q => p.base = q.base → p.count < q.count) ∧
  (st.renames.map Prod.snd).Sublist (st.plans.map Plan.dst)

/-- The number of passes that were made for the tentative path `K`. -/
def passes_for (K : Path) (plans : List Plan) : Nat :=
  (plans.filter (fun pl => pl.base = K)).length

/-- Whether the pass that inserted `K` into the table found a file named `K` on disk. -/
def found_on_disk (K : Path) (plans : List Plan) : Bool :=
  plans.any (fun pl => pl.base = K && pl.inserted && pl.on_disk)

/-- The table against the record of the passes: a path in the table has a count of at
least 1, equal to the number of passes made for it, plus 1 if it named a file on disk
when it was inserted; a path not in the table had no pass. -/
def counts_ok (st : State) : Prop :=
  ∀ K, (∀ c, st.new_paths K = some c →
          1 ≤ c ∧ c = passes_for K st.plans + if found_on_disk K st.plans then 1 else 0) ∧
       (st.new_paths K = none → passes_for K st.plans = 0 ∧ found_on_disk K st.plans = false)

/-- A file that already carries the name `stem_1.ext` of its own stem. -/
def settled (uninit : Tm) (p : Path) (f : File) : Prop :=
  ∃ stem, new_stem_from_exif uninit f = some stem ∧
    make_path_from_stem p (stem ++ "_1".toList) = p

/-- A `tm` of zeros, for the uninitialised object in examples. -/
def zero_tm : Tm :=
  { tm_sec := 0, tm_min := 0, tm_hour := 0, tm_mday := 0, tm_mon := 0, tm_year := 0 }

/-- A path in the directory `/photos`. -/
def in_photos (name : String) : Path := { parent := "/photos".toList, filename := name.toList }

/-- A photo without metadata, created on 2023-05-01 at 10:00:00, with the given bytes. -/
def created_at_ten (bytes : List Nat) : File :=
  { exif := .no_data, birthtime := some (calendar_tm 2023 5 1 10 0 0), bytes := bytes }

/-- A photo whose metadata says 2023:05:01 10:00:00, created later. -/
def shot_at_ten (bytes : List Nat) : File :=
  { exif := .value "2023:05:01 10:00:00".toList,
    birthtime := some (calendar_tm 2024 1 1 0 0 0), bytes := bytes }

/-- Three photos of the same second: `a.jpg` by its metadata, `b.jpg` and `c.jpg` by
their creation time. -/
def same_second : Disk :=
  [(in_photos "a.jpg", .regular (shot_at_ten [1])),
   (in_photos "b.jpg", .regular (created_at_ten [2])),
   (in_photos "c.jpg", .regular (created_at_ten [3]))]

/-- Two photos of the same second, as a first run leaves them. -/
def renamed_pair : Disk :=
  [(in_photos "2023-05-01_10-00-00_1.jpg", .regular (shot_at_ten [1])),
   (in_photos "2023-05-01_10-00-00_2.jpg", .regular (created_at_ten [2]))]

/-- The directory `renamed_pair` with a new photo of the same second, `0001.jpg`. -/
def renamed_pair_and_new : Disk :=
  [(in_photos "2023-05-01_10-00-00_1.jpg", .regular (shot_at_ten [1])),
   (in_photos "2023-05-01_10-00-00_2.jpg", .regular (created_at_ten [2])),
   (in_photos "0001.jpg", .regular (created_at_ten [3]))]

/-- Two photos of different seconds. -/
def two_seconds : Disk :=
  [(in_photos "a.jpg", .regular (shot_at_ten [1])),
   (in_photos "b.jpg", .regular
     { exif := .no_data, birthtime := some (calendar_tm 2023 5 1 11 30 0), bytes := [2] })]

/-! ## Facts about digits -/

theorem digitChar_facts : ∀ d, d < 10 →
    isdigit (digitChar d) = true ∧ isspace (digitChar d) = false ∧
    (digitChar d).toNat - 48 = d ∧ digitChar d ≠ '.' ∧ digitChar d ≠ '_' ∧
    digitChar d ≠ '-' := by decide

theorem isdigit_digitChar {d : Nat} (h : d < 10) : isdigit (digitChar d) = true :=
  (digitChar_facts d h).1

theorem isspace_digitChar {d : Nat} (h : d < 10) : isspace (digitChar d) = false :=
  (digitChar_facts d h).2.1

theorem toNat_digitChar {d : Nat} (h : d < 10) : (digitChar d).toNat - 48 = d :=
  (digitChar_facts d h).2.2.1

/-- Every character that `decimalAux` adds is a digit. -/
theorem decimalAux_chars (fuel : Nat) : ∀ (n : Nat) (acc : Text) (c : Char),
    c ∈ decimalAux fuel n acc → c ∈ acc ∨ ∃ d, d < 10 ∧ c = digitChar d := by
  induction fuel with
  | zero => intro n acc c h; exact Or.inl h
  | succ fuel ih =>
    intro n acc c h
    have hd : n % 10 < 10 := Nat.mod_lt _ (by decide)
    unfold decimalAux at h
    split at h
    · rcases List.mem_cons.1 h with h | h
      · exact Or.inr ⟨_, hd, h⟩
      · exact Or.inl h
    · rcases ih _ _ _ h with h | h
      · rcases List.mem_cons.1 h with h | h
        · exact Or.inr ⟨_, hd, h⟩
        · exact Or.inl h
      · exact Or.inr h

theorem decimal_chars (n : Nat) (c : Char) (h : c ∈ decimal n) :
    ∃ d, d < 10 ∧ c = digitChar d := by
  rcases decimalAux_chars _ _ _ _ h with h | h
  · cases h
  · exact h

theorem conv02_two_nat : ∀ n, n < 100 → conv02 (n : Nat) = two n := by decide

theorem conv02_two (x : Int) (h0 : 0 ≤ x) (h1 : x < 100) : conv02 x = two x.toNat := by
  obtain ⟨n, rfl⟩ := Int.eq_ofNat_of_zero_le h0
  simpa using conv02_two_nat n (by omega)

/-- Truncating division by 100, as linear facts. -/
theorem tdiv_tmod_100 (x : Int) :
    x.tmod 100 + 100 * x.tdiv 100 = x ∧ -100 < x.tmod 100 ∧ x.tmod 100 < 100 ∧
    (0 ≤ x → 0 ≤ x.tmod 100) ∧ (x ≤ 0 → x.tmod 100 ≤ 0) := by
  have e := Int.tmod_add_tdiv x 100
  have lt := Int.tmod_lt_of_pos x (b := 100) (by decide)
  have e' := Int.tmod_add_tdiv (-x) 100
  have lt' := Int.tmod_lt_of_pos (-x) (b := 100) (by decide)
  have n' := Int.neg_tdiv x 100
  refine ⟨e, ?_, lt, fun h => Int.tmod_nonneg 100 h, fun h => ?_⟩
  · omega
  · have := Int.tmod_nonneg 100 (show (0 : Int) ≤ -x by omega)
    omega

theorem yconv_four (a : Int) (h0 : 0 ≤ a + 1900) (h1 : a + 1900 ≤ 9999) :
    yconv a 1900 = four (a + 1900).toNat := by
  obtain ⟨e, lo, hi, nn, np⟩ := tdiv_tmod_100 a
  have b1 : Int.tmod 1900 100 = 0 := by decide
  have b2 : Int.tdiv 1900 100 = 19 := by decide
  obtain ⟨e2, lo2, hi2, nn2, np2⟩ := tdiv_tmod_100 (a.tmod 100)
  unfold yconv
  simp only [b1, b2, add_zero]
  generalize a.tmod 100 = r at *
  generalize a.tdiv 100 = q at *
  have hq2 : r.tdiv 100 = 0 := by omega
  have hr2 : r.tmod 100 = r := by omega
  simp only [hq2, hr2, add_zero]
  have hl : (if r < 0 ∧ q + 19 > 0 then q + 19 - 1
      else if q + 19 < 0 ∧ r > 0 then q + 19 + 1 else q + 19) = (a + 1900) / 100 := by
    split_ifs <;> omega
  have ht : (if r < 0 ∧ q + 19 > 0 then r + 100
      else if q + 19 < 0 ∧ r > 0 then r - 100 else r) = (a + 1900) % 100 := by
    split_ifs <;> omega
  rw [hl, ht]
  have h3 : ¬ ((a + 1900) % 100 < 0) := by omega
  have h4 : ¬ ((a + 1900) / 100 = 0 ∧ (a + 1900) % 100 < 0) := by omega
  rw [if_neg h3, if_neg h4, conv02_two _ (by omega) (by omega),
    conv02_two _ (by omega) (by omega)]
  unfold four
  congr 2 <;> omega

/-! ## The stem of a time -/

theorem to_stem_char_digit : ∀ d, d < 10 → to_stem_char (digitChar d) = digitChar d := by
  decide

theorem time_to_path_calendar (year month day hour minute second : Nat)
    (hy : year ≤ 9999) (hm1 : 1 ≤ month) (hm2 : month ≤ 12) (hd2 : day ≤ 31)
    (hh : hour ≤ 23) (hmi : minute ≤ 59) (hs : second ≤ 60) :
    time_to_path (calendar_tm year month day hour minute second)
      = stem_text year month day hour minute second := by
  unfold time_to_path strftime calendar_tm stem_text
  simp only
  rw [yconv_four _ (by omega) (by omega), conv02_two _ (by omega) (by omega),
    conv02_two _ (by omega) (by omega), conv02_two _ (by omega) (by omega),
    conv02_two _ (by omega) (by omega), conv02_two _ (by omega) (by omega)]
  have e1 : ((year : Int) - 1900 + 1900).toNat = year := by omega
  have e2 : ((month : Int) - 1 + 1).toNat = month := by omega
  simp only [e1, e2, Int.toNat_ofNat]

theorem stem_text_shape (year month day hour minute second : Nat)
    (hy : year ≤ 9999) (hm : month < 100) (hd : day < 100) (hh : hour < 100)
    (hmi : minute < 100) (hs : second < 100) :
    (stem_text year month day hour minute second).length = 19 ∧
    stem_shape (stem_text year month day hour minute second) = true := by
  refine ⟨by simp [stem_text, four, two], ?_⟩
  simp only [stem_text, four, two, List.cons_append, List.nil_append, stem_shape,
    Bool.and_eq_true, decide_eq_true_eq, and_true, true_and]
  simp only [isdigit_digitChar (Nat.mod_lt _ (show 0 < 10 by decide)), and_true, true_and]
  refine ⟨⟨⟨⟨⟨⟨?_, ?_⟩, ?_⟩, ?_⟩, ?_⟩, ?_⟩, ?_⟩ <;> apply isdigit_digitChar <;> omega

/-- C7 (as amended): for every calendar time with a year from 0 to 9999,
`time_to_path` gives exactly 19 characters of the shape `dddd-dd-dd_dd-dd-dd`: the four
digits of the year and the two digits of the month, day, hour, minute and second. -/
theorem time_to_path_fixed_width (year month day hour minute second : Nat)
    (hy : year ≤ 9999) (hm1 : 1 ≤ month) (hm2 : month ≤ 12) (hd1 : 1 ≤ day)
    (hd2 : day ≤ 31) (hh : hour ≤ 23) (hmi : minute ≤ 59) (hs : second ≤ 60) :
    time_to_path (calendar_tm year month day hour minute second)
        = stem_text year month day hour minute second ∧
      (time_to_path (calendar_tm year month day hour minute second)).length = 19 ∧
      stem_shape (time_to_path (calendar_tm year month day hour minute second)) = true := by
  have _ := hd1
  rw [time_to_path_calendar year month day hour minute second hy hm1 hm2 hd2 hh hmi hs]
  exact ⟨rfl, stem_text_shape year month day hour minute second hy (by omega) (by omega)
    (by omega) (by omega) (by omega)⟩

theorem time_to_path_fixed_width_witness :
    time_to_path (calendar_tm 2023 5 1 10 0 0) = "2023-05-01_10-00-00".toList ∧
      (time_to_path (calendar_tm 2023 5 1 10 0 0)).length = 19 ∧
      stem_shape (time_to_path (calendar_tm 2023 5 1 10 0 0)) = true :=
  time_to_path_fixed_width 2023 5 1 10 0 0 (by decide) (by decide) (by decide) (by decide)
    (by decide) (by decide) (by decide) (by decide)

/-- C7 (as stated) fails: the time 10000-01-01 00:00:00 is given a stem of 20
characters, with a year of five digits. -/
theorem time_to_path_year_10000 :
    time_to_path (calendar_tm 10000 1 1 0 0 0) = "10000-01-01_00-00-00".toList ∧
      (time_to_path (calendar_tm 10000 1 1 0 0 0)).length ≠ 19 ∧
      stem_shape (time_to_path (calendar_tm 10000 1 1 0 0 0)) = false := by
  decide

/-- Reading a field of two digits. -/
theorem get_two (n : Nat) (hn : n < 100) (rest : Text) :
    get_up_to_n_digits 2 (two n ++ rest) = some (n, rest) := by
  have h1 : n / 10 < 10 := by omega
  have h2 : n % 10 < 10 := by omega
  simp only [two, List.cons_append, List.nil_append, get_up_to_n_digits, more_digits,
    isdigit_digitChar h1, isdigit_digitChar h2, toNat_digitChar h1, toNat_digitChar h2,
    if_true]
  cases rest <;> simp [more_digits] <;> omega

/-- Reading a field of four digits. -/
theorem get_four (n : Nat) (hn : n < 10000) (rest : Text) :
    get_up_to_n_digits 4 (four n ++ rest) = some (n, rest) := by
  have h1 : n / 100 / 10 < 10 := by omega
  have h2 : n / 100 % 10 < 10 := by omega
  have h3 : n % 100 / 10 < 10 := by omega
  have h4 : n % 100 % 10 < 10 := by omega
  simp only [four, two, List.cons_append, List.nil_append, get_up_to_n_digits, more_digits,
    isdigit_digitChar h1, isdigit_digitChar h2, isdigit_digitChar h3, isdigit_digitChar h4,
    toNat_digitChar h1, toNat_digitChar h2, toNat_digitChar h3, toNat_digitChar h4,
    if_true]
  cases rest <;> simp [more_digits] <;> omega

theorem two_ne_nil (n : Nat) (rest : Text) :
    two n ++ rest = digitChar (n / 10) :: digitChar (n % 10) :: rest := rfl

theorem time_get_conv (cmd : Char) (fmt : List FmtItem) (input rest : Text) (tm tm' : Tm)
    (h : do_get cmd input tm = some (tm', rest)) :
    time_get (.conv cmd :: fmt) input tm = time_get fmt rest tm' := by
  cases input with
  | nil => simp [do_get, get_up_to_n_digits] at h
  | cons c cs => simp only [time_get, h]

theorem time_get_colon (fmt : List FmtItem) (cs : Text) (tm : Tm) :
    time_get (.lit ':' :: fmt) (':' :: cs) tm = time_get fmt cs tm := by
  simp only [time_get, if_true]

theorem time_get_space (fmt : List FmtItem) (n : Nat) (hn : n < 100) (rest : Text) (tm : Tm) :
    time_get (.space :: fmt) (' ' :: (two n ++ rest)) tm = time_get fmt (two n ++ rest) tm := by
  have h1 : isspace ' ' = true := by decide
  simp only [time_get, two, List.cons_append, List.nil_append, List.dropWhile_cons, h1,
    if_true, isspace_digitChar (show n / 10 < 10 by omega)]
  rfl

theorem do_get_year (n : Nat) (hn : n ≤ 9999) (rest : Text) (tm : Tm) :
    do_get 'Y' (four n ++ rest) tm = some ({ tm with tm_year := (n : Int) - 1900 }, rest) := by
  simp only [do_get, if_true, get_four n (by omega)]

theorem do_get_month (n : Nat) (h1 : 1 ≤ n) (h2 : n ≤ 12) (rest : Text) (tm : Tm) :
    do_get 'm' (two n ++ rest) tm = some ({ tm with tm_mon := (n : Int) - 1 }, rest) := by
  simp [do_get, get_two n (show n < 100 by omega) rest, h1, h2]

theorem do_get_day (n : Nat) (h1 : 1 ≤ n) (h2 : n ≤ 31) (rest : Text) (tm : Tm) :
    do_get 'd' (two n ++ rest) tm = some ({ tm with tm_mday := n }, rest) := by
  simp [do_get, get_two n (show n < 100 by omega) rest, h1, h2]

theorem do_get_hour (n : Nat) (h : n ≤ 23) (rest : Text) (tm : Tm) :
    do_get 'H' (two n ++ rest) tm = some ({ tm with tm_hour := n }, rest) := by
  simp [do_get, get_two n (show n < 100 by omega) rest, h]

theorem do_get_minute (n : Nat) (h : n ≤ 59) (rest : Text) (tm : Tm) :
    do_get 'M' (two n ++ rest) tm = some ({ tm with tm_min := n }, rest) := by
  simp [do_get, get_two n (show n < 100 by omega) rest, h]

theorem do_get_second (n : Nat) (h : n ≤ 60) (rest : Text) (tm : Tm) :
    do_get 'S' (two n ++ rest) tm = some ({ tm with tm_sec := n }, rest) := by
  simp [do_get, get_two n (show n < 100 by omega) rest, h]

/-- On the text of a calendar time `get_time` writes all six fields and does not fail. -/
theorem get_time_exif_text (uninit : Tm) (year month day hour minute second : Nat)
    (hy : year ≤ 9999) (hm1 : 1 ≤ month) (hm2 : month ≤ 12) (hd1 : 1 ≤ day)
    (hd2 : day ≤ 31) (hh : hour ≤ 23) (hmi : minute ≤ 59) (hs : second ≤ 60) :
    get_time (exif_text year month day hour minute second) uninit
      = (calendar_tm year month day hour minute second, false) := by
  have hy1 : year / 100 / 10 < 10 := by omega
  unfold get_time exif_text
  have e0 : (four year ++ ':' :: two month ++ ':' :: two day ++ ' ' :: two hour
      ++ ':' :: two minute ++ ':' :: two second).dropWhile isspace
      = four year ++ ':' :: (two month ++ ':' :: (two day ++ ' ' :: (two hour
      ++ ':' :: (two minute ++ ':' :: (two second ++ []))))) := by
    simp only [four, two, List.cons_append, List.nil_append, List.dropWhile_cons,
      isspace_digitChar hy1, List.append_nil]
    rfl
  rw [e0]
  unfold exif_format
  rw [time_get_conv 'Y' _ _ _ _ _ (do_get_year year hy _ _), time_get_colon,
    time_get_conv 'm' _ _ _ _ _ (do_get_month month hm1 hm2 _ _), time_get_colon,
    time_get_conv 'd' _ _ _ _ _ (do_get_day day hd1 hd2 _ _),
    time_get_space _ _ (by omega),
    time_get_conv 'H' _ _ _ _ _ (do_get_hour hour hh _ _), time_get_colon,
    time_get_conv 'M' _ _ _ _ _ (do_get_minute minute hmi _ _), time_get_colon,
    time_get_conv 'S' _ _ _ _ _ (do_get_second second hs _ _)]
  simp [time_get, calendar_tm]

theorem map_to_stem_char_two (n : Nat) (h : n < 100) : (two n).map to_stem_char = two n := by
  simp [two, to_stem_char_digit _ (show n / 10 < 10 by omega),
    to_stem_char_digit _ (Nat.mod_lt n (show 0 < 10 by decide))]

/-- C6: for every well-formed date text `YYYY:MM:DD HH:MM:SS` (year 1000..9999, month
01..12, day 01..31, hour 00..23, minute 00..59, second 00..59), whatever the
uninitialised `tm` held, `time_to_path(char*)` gives the stem `YYYY-MM-DD_HH-MM-SS` with
the same digits: the text with each colon replaced by a hyphen and the space by an
underscore. -/
theorem time_to_path_str_well_formed (uninit : Tm) (year month day hour minute second : Nat)
    (hy1 : 1000 ≤ year) (hy2 : year ≤ 9999) (hm1 : 1 ≤ month) (hm2 : month ≤ 12)
    (hd1 : 1 ≤ day) (hd2 : day ≤ 31) (hh : hour ≤ 23) (hmi : minute ≤ 59)
    (hs : second ≤ 59) :
    time_to_path_str uninit (exif_text year month day hour minute second)
        = stem_text year month day hour minute second ∧
      stem_text year month day hour minute second
        = (exif_text year month day hour minute second).map to_stem_char := by
  have _ := hy1
  constructor
  · unfold time_to_path_str
    rw [get_time_exif_text uninit year month day hour minute second hy2 hm1 hm2 hd1 hd2 hh
      hmi (by omega)]
    exact time_to_path_calendar year month day hour minute second hy2 hm1 hm2 hd2 hh hmi
      (by omega)
  · have c1 : to_stem_char ':' = '-' := by decide
    have c2 : to_stem_char ' ' = '_' := by decide
    simp only [exif_text, stem_text, four, List.map_append, List.map_cons, c1, c2,
      map_to_stem_char_two _ (show year / 100 < 100 by omega),
      map_to_stem_char_two _ (show year % 100 < 100 by omega),
      map_to_stem_char_two _ (show month < 100 by omega),
      map_to_stem_char_two _ (show day < 100 by omega),
      map_to_stem_char_two _ (show hour < 100 by omega),
      map_to_stem_char_two _ (show minute < 100 by omega),
      map_to_stem_char_two _ (show second < 100 by omega)]

theorem time_to_path_str_well_formed_witness :
    time_to_path_str ⟨7, 7, 7, 7, 7, 7⟩ "2023:05:01 10:00:00".toList
        = "2023-05-01_10-00-00".toList ∧
      "2023-05-01_10-00-00".toList = ("2023:05:01 10:00:00".toList).map to_stem_char :=
  time_to_path_str_well_formed ⟨7, 7, 7, 7, 7, 7⟩ 2023 5 1 10 0 0 (by decide) (by decide)
    (by decide) (by decide) (by decide) (by decide) (by decide) (by decide) (by decide)

theorem get_time_unset_clock (uninit : Tm) :
    get_time "0000:00:00 00:00:00".toList uninit
      = ({ uninit with tm_year := -1900 }, true) := rfl

/-- C5 (the code departs from it): the entry text `0000:00:00 00:00:00` cannot be parsed
(month 00 sets failbit), the fallback to the birth time is not taken: the stem is made
of the parsed year 0000 and of whatever the uninitialised `tm` holds, and differs from
the stem of the birth time, `2023-05-01_10-00-00`. -/
theorem new_stem_from_exif_unparsable (uninit : Tm) :
    (get_time "0000:00:00 00:00:00".toList uninit).2 = true ∧
      new_stem_from_stat unset_clock_photo = some "2023-05-01_10-00-00".toList ∧
      new_stem_from_exif uninit unset_clock_photo
        = some (time_to_path { uninit with tm_year := -1900 }) ∧
      new_stem_from_exif uninit unset_clock_photo ≠ new_stem_from_stat unset_clock_photo := by
  refine ⟨rfl, by decide, rfl, ?_⟩
  have e : new_stem_from_stat unset_clock_photo = some "2023-05-01_10-00-00".toList := by
    decide
  have e2 : new_stem_from_exif uninit unset_clock_photo
      = some (time_to_path { uninit with tm_year := -1900 }) := rfl
  have y : yconv (-1900) 1900 = "0000".toList := by decide
  rw [e, e2]
  intro h
  have h' := congrArg (fun o : Option Text => o.bind List.head?) h
  simp [time_to_path, strftime, y] at h'

/-! ## Stems have no dot -/

theorem digitChar_ne_dot {d : Nat} (h : d < 10) : digitChar d ≠ '.' :=
  (digitChar_facts d h).2.2.2.1

theorem digitChar_ne_underscore {d : Nat} (h : d < 10) : digitChar d ≠ '_' :=
  (digitChar_facts d h).2.2.2.2.1

theorem decimal_no_dot (n : Nat) : '.' ∉ decimal n := by
  intro h
  obtain ⟨d, hd, e⟩ := decimal_chars n _ h
  exact digitChar_ne_dot hd e.symm

theorem decimal_no_underscore (n : Nat) : '_' ∉ decimal n := by
  intro h
  obtain ⟨d, hd, e⟩ := decimal_chars n _ h
  exact digitChar_ne_underscore hd e.symm

theorem conv02_no_dot (n : Int) : '.' ∉ conv02 n := by
  unfold conv02
  split_ifs <;> simp [decimal_no_dot]

theorem yconv_no_dot (a b : Int) : '.' ∉ yconv a b := by
  unfold yconv
  simp only [List.mem_append, not_or]
  have h0 : '.' ∉ "-0".toList := by decide
  constructor
  · split_ifs <;> first | exact h0 | exact conv02_no_dot _
  · exact conv02_no_dot _

theorem time_to_path_no_dot (time : Tm) : '.' ∉ time_to_path time := by
  simp [time_to_path, strftime, yconv_no_dot, conv02_no_dot]

theorem new_stem_from_stat_no_dot {f : File} {stem : Text}
    (h : new_stem_from_stat f = some stem) : '.' ∉ stem := by
  unfold new_stem_from_stat at h
  split at h
  · cases h
  · cases h; exact time_to_path_no_dot _

theorem new_stem_from_exif_no_dot {uninit : Tm} {f : File} {stem : Text}
    (h : new_stem_from_exif uninit f = some stem) : '.' ∉ stem := by
  unfold new_stem_from_exif at h
  split at h
  · exact new_stem_from_stat_no_dot h
  · exact new_stem_from_stat_no_dot h
  · cases h; exact time_to_path_no_dot _

/-! ## Extensions -/

theorem from_last_dot_none {s : Text} (h : '.' ∉ s) : from_last_dot s = none := by
  induction s with
  | nil => rfl
  | cons c cs ih =>
    have h1 : '.' ∉ cs := fun h' => h (List.mem_cons_of_mem _ h')
    have h2 : c ≠ '.' := fun e => h (e ▸ List.mem_cons_self _ _)
    simp [from_last_dot, ih h1, h2]

theorem from_last_dot_some {s e : Text} (h : from_last_dot s = some e) :
    ∃ r, e = '.' :: r ∧ '.' ∉ r := by
  induction s with
  | nil => simp [from_last_dot] at h
  | cons c cs ih =>
    unfold from_last_dot at h
    cases hc : from_last_dot cs with
    | some e' =>
      rw [hc] at h
      cases h
      exact ih hc
    | none =>
      rw [hc] at h
      simp only at h
      split_ifs at h with hdot
      cases h
      refine ⟨cs, by rw [hdot], ?_⟩
      intro hmem
      have : ∀ t : Text, '.' ∈ t → from_last_dot t ≠ none := by
        intro t
        induction t with
        | nil => intro h; cases h
        | cons x xs ihx =>
          intro hx
          unfold from_last_dot
          cases hxs : from_last_dot xs with
          | some _ => simp
          | none =>
            rcases List.mem_cons.1 hx with hx | hx
            · simp [hx.symm]
            · exact absurd hxs (ihx hx)
      exact this cs hmem hc

theorem extension_is_extension (name : Text) : is_extension (extension name) := by
  unfold extension
  split_ifs
  · exact Or.inl rfl
  · cases h : from_last_dot name with
    | none => exact Or.inl rfl
    | some e => exact Or.inr (from_last_dot_some h)

theorem extension_no_dot {s : Text} (h : '.' ∉ s) : extension s = [] := by
  unfold extension
  split_ifs
  · rfl
  · rw [from_last_dot_none h]; rfl

theorem replace_extension_no_dot {s e : Text} (h : '.' ∉ s) (he : is_extension e) :
    replace_extension s e = s ++ e := by
  unfold replace_extension
  rw [extension_no_dot h]
  rcases he with rfl | ⟨r, rfl, _⟩
  · simp
  · simp

theorem from_last_dot_append {s r : Text} (h : '.' ∉ r) :
    from_last_dot (s ++ '.' :: r) = some ('.' :: r) := by
  induction s with
  | nil => simp [from_last_dot, from_last_dot_none h]
  | cons c cs ih => simp [from_last_dot, ih]

theorem extension_append {s e : Text} (h : '.' ∉ s) (hs : s ≠ []) (he : is_extension e) :
    extension (s ++ e) = e := by
  rcases he with rfl | ⟨r, rfl, hr⟩
  · simpa using extension_no_dot h
  · unfold extension
    obtain ⟨c, cs, rfl⟩ := List.exists_cons_of_ne_nil hs
    have hc : c ≠ '.' := fun e => h (e ▸ List.mem_cons_self _ _)
    have n1 : ¬ (c :: cs ++ '.' :: r = ['.'] ∨ c :: cs ++ '.' :: r = ['.', '.']) := by
      simp [hc]
    rw [if_neg n1, from_last_dot_append hr]
    rfl

/-- The path built from a stem without a dot: the stem with the extension of the old
file name, in the old directory. -/
theorem make_path_from_stem_no_dot (old_path : Path) {stem : Text} (h : '.' ∉ stem) :
    make_path_from_stem old_path stem
      = { parent := old_path.parent, filename := stem ++ extension old_path.filename } := by
  unfold make_path_from_stem
  rw [replace_extension_no_dot h (extension_is_extension _)]

/-- Building a second path from a path that was built from a stem keeps the directory
and the extension of the first file. -/
theorem make_path_from_stem_twice (old_path : Path) {s1 s2 : Text} (h1 : '.' ∉ s1)
    (hne : s1 ≠ []) (h2 : '.' ∉ s2) :
    make_path_from_stem (make_path_from_stem old_path s1) s2
      = { parent := old_path.parent, filename := s2 ++ extension old_path.filename } := by
  rw [make_path_from_stem_no_dot old_path h1, make_path_from_stem_no_dot _ h2]
  simp only [extension_append h1 hne (extension_is_extension _)]

/-! ## The disk -/

theorem fs_find_replace_name (old_p new_p p : Path) (d : Disk) (h : old_p ≠ new_p) :
    fs_find p (replace_name old_p new_p d)
      = if p = new_p then fs_find old_p d else if p = old_p then none else fs_find p d := by
  induction d with
  | nil => simp [replace_name, fs_find]
  | cons e d ih =>
    obtain ⟨q, n⟩ := e
    unfold replace_name
    by_cases hq : q = new_p
    · subst hq
      rw [if_pos rfl, ih]
      have h' : ¬ q = old_p := fun e => h e.symm
      by_cases hp : p = q
      · subst hp; simp [fs_find, h']
      · have hp' : ¬ q = p := fun e => hp e.symm
        simp [fs_find, hp, hp']
    · rw [if_neg hq]
      by_cases hqo : q = old_p
      · subst hqo
        rw [if_pos rfl]
        by_cases hp : p = new_p
        · subst hp; simp [fs_find]
        · have hp' : ¬ new_p = p := fun e => hp e.symm
          by_cases hpq : p = q
          · subst hpq; simp [fs_find, ih, hp, hp']
          · have hpq' : ¬ q = p := fun e => hpq e.symm
            simp [fs_find, ih, hp, hp', hpq, hpq']
      · rw [if_neg hqo]
        by_cases hp : q = p
        · subst hp; simp [fs_find, hq, hqo]
        · simp [fs_find, ih, hp, hqo]

/-- When `fs::rename` succeeds on two different names. -/
theorem fs_rename_ok {old_p new_p : Path} {d : Disk} {f : File}
    (hf : fs_find old_p d = some (.regular f)) (hne : old_p ≠ new_p)
    (hnew : fs_find new_p d ≠ some .directory) :
    fs_rename old_p new_p d = some (replace_name old_p new_p d) := by
  unfold fs_rename
  rw [hf]
  rw [if_neg hne]
  cases hn : fs_find new_p d with
  | none => rfl
  | some n =>
    cases n with
    | regular g => rfl
    | directory => exact absurd hn hnew

/-- Renaming a file to the name it has changes nothing. -/
theorem fs_rename_same {p : Path} {d : Disk} {f : File}
    (hf : fs_find p d = some (.regular f)) : fs_rename p p d = some d := by
  unfold fs_rename
  rw [hf]
  simp

/-! ## The collision step -/

theorem no_dot_suffix {stem : Text} (h : '.' ∉ stem) (n : Nat) :
    '.' ∉ stem ++ '_' :: decimal n := by
  simp only [List.mem_append, List.mem_cons, not_or]
  exact ⟨h, by decide, decimal_no_dot n⟩

/-- The tentative path of an entry is `dir/stem_1.ext`. -/
theorem tentative_path (dir_entry : Path) {stem : Text} (h : '.' ∉ stem) :
    make_path_from_stem dir_entry (stem ++ "_1".toList)
      = numbered dir_entry.parent stem 1 (extension dir_entry.filename) :=
  make_path_from_stem_no_dot dir_entry (no_dot_suffix h 1)

/-- The path recomputed from a tentative path and a count is `dir/stem_N.ext`. -/
theorem recomputed_path (dir_entry : Path) {stem : Text} (h : '.' ∉ stem) (n : Nat) :
    make_path_from_stem (make_path_from_stem dir_entry (stem ++ "_1".toList))
        (stem ++ '_' :: decimal n)
      = numbered dir_entry.parent stem n (extension dir_entry.filename) :=
  make_path_from_stem_twice dir_entry (no_dot_suffix h 1) (by simp) (no_dot_suffix h n)

theorem count_after_none {new_paths : ClaimTable} {disk : Disk} {new_path : Path}
    (h : new_paths new_path = none) :
    count_after new_paths disk new_path = if fs_exists new_path disk then 2 else 1 := by
  unfold count_after
  rw [h]
  cases fs_exists new_path disk <;> rfl

theorem count_after_some {new_paths : ClaimTable} {disk : Disk} {new_path : Path} {c : Nat}
    (h : new_paths new_path = some c) : count_after new_paths disk new_path = c + 1 := by
  unfold count_after
  rw [h]
  rfl

theorem count_after_pos (new_paths : ClaimTable) (disk : Disk) (new_path : Path) :
    1 ≤ count_after new_paths disk new_path := by
  cases h : new_paths new_path with
  | none => rw [count_after_none h]; split_ifs <;> omega
  | some c => rw [count_after_some h]; omega

/-- The final path for the tentative path of an entry and a count of at least 1 is
`dir/stem_N.ext`. -/
theorem final_path_eq (dir_entry : Path) {stem : Text} (h : '.' ∉ stem) {n : Nat}
    (hn : 1 ≤ n) :
    final_path (make_path_from_stem dir_entry (stem ++ "_1".toList)) stem n
      = numbered dir_entry.parent stem n (extension dir_entry.filename) := by
  unfold final_path
  split_ifs with hgt
  · rw [recomputed_path dir_entry h]
  · have h1 : n = 1 := by omega
    subst h1
    rw [tentative_path dir_entry h]

/-- What `reserve` gives for the tentative path of an entry: the table with the new
count, the count, and the path `dir/stem_N.ext` for the count `N`. -/
theorem reserve_eq (new_paths : ClaimTable) (disk : Disk) (dir_entry : Path) {stem : Text}
    (h : '.' ∉ stem) :
    reserve new_paths disk (make_path_from_stem dir_entry (stem ++ "_1".toList)) stem
      = ((fun p => if p = make_path_from_stem dir_entry (stem ++ "_1".toList)
            then some (count_after new_paths disk
              (make_path_from_stem dir_entry (stem ++ "_1".toList)))
            else new_paths p),
         count_after new_paths disk (make_path_from_stem dir_entry (stem ++ "_1".toList)),
         numbered dir_entry.parent stem
           (count_after new_paths disk (make_path_from_stem dir_entry (stem ++ "_1".toList)))
           (extension dir_entry.filename)) := by
  rw [← final_path_eq dir_entry h (count_after_pos new_paths disk _)]
  rfl

/-- C2: the collision step of `main` on the tentative path `P = dir/S_1.ext` of an entry,
`S` the stem of a time. (i) `P` not in the table and no file named `P` on disk: `P` is
recorded with count 1 and the final path is `P`. (ii) `P` not in the table and a file
named `P` on disk: count 2, final path `dir/S_2.ext`. (iii) `P` in the table with count
`c`: count `c + 1`, final path `dir/S_(c+1).ext`. No other entry of the table changes. -/
theorem reserve_cases (new_paths : ClaimTable) (disk : Disk) (dir_entry : Path) (time : Tm) :
    make_path_from_stem dir_entry (time_to_path time ++ "_1".toList)
        = numbered dir_entry.parent (time_to_path time) 1 (extension dir_entry.filename) ∧
      (new_paths (numbered dir_entry.parent (time_to_path time) 1
            (extension dir_entry.filename)) = none →
        fs_exists (numbered dir_entry.parent (time_to_path time) 1
            (extension dir_entry.filename)) disk = false →
        reserve new_paths disk (numbered dir_entry.parent (time_to_path time) 1
            (extension dir_entry.filename)) (time_to_path time)
          = (fun p => if p = numbered dir_entry.parent (time_to_path time) 1
              (extension dir_entry.filename) then some 1 else new_paths p, 1,
             numbered dir_entry.parent (time_to_path time) 1
               (extension dir_entry.filename))) ∧
      (new_paths (numbered dir_entry.parent (time_to_path time) 1
            (extension dir_entry.filename)) = none →
        fs_exists (numbered dir_entry.parent (time_to_path time) 1
            (extension dir_entry.filename)) disk = true →
        reserve new_paths disk (numbered dir_entry.parent (time_to_path time) 1
            (extension dir_entry.filename)) (time_to_path time)
          = (fun p => if p = numbered dir_entry.parent (time_to_path time) 1
              (extension dir_entry.filename) then some 2 else new_paths p, 2,
             numbered dir_entry.parent (time_to_path time) 2
               (extension dir_entry.filename))) ∧
      (∀ c, new_paths (numbered dir_entry.parent (time_to_path time) 1
            (extension dir_entry.filename)) = some c →
        reserve new_paths disk (numbered dir_entry.parent (time_to_path time) 1
            (extension dir_entry.filename)) (time_to_path time)
          = (fun p => if p = numbered dir_entry.parent (time_to_path time) 1
              (extension dir_entry.filename) then some (c + 1) else new_paths p, c + 1,
             numbered dir_entry.parent (time_to_path time) (c + 1)
               (extension dir_entry.filename))) ∧
      (∀ K, K ≠ numbered dir_entry.parent (time_to_path time) 1
            (extension dir_entry.filename) →
        (reserve new_paths disk (numbered dir_entry.parent (time_to_path time) 1
            (extension dir_entry.filename)) (time_to_path time)).1 K = new_paths K) := by
  have hd := time_to_path_no_dot time
  have hP := tentative_path dir_entry hd
  have hR := reserve_eq new_paths disk dir_entry hd
  rw [hP] at hR
  refine ⟨hP, ?_, ?_, ?_, ?_⟩
  · intro hn he
    rw [hR, count_after_none hn, he]; rfl
  · intro hn he
    rw [hR, count_after_none hn, he]; rfl
  · intro c hc
    rw [hR, count_after_some hc]
  · intro K hK
    rw [hR]
    simp [hK]

/-! ## One pass of the loop -/

/-- The pass of the loop for a regular file whose tentative path is not its own. -/
theorem loop_body_pass {uninit : Tm} {st : State} {dir_entry : Path} {f : File} {stem : Text}
    (hnt : st.terminated = false) (hf : fs_find dir_entry st.disk = some (.regular f))
    (hs : new_stem_from_exif uninit f = some stem)
    (hne : numbered dir_entry.parent stem 1 (extension dir_entry.filename) ≠ dir_entry) :
    loop_body uninit st dir_entry
      = match fs_rename dir_entry (plan_for st dir_entry stem).dst st.disk with
        | none =>
          { st with new_paths := table_for st dir_entry stem,
                    plans := st.plans ++ [plan_for st dir_entry stem], terminated := true }
        | some disk =>
          { disk := disk, new_paths := table_for st dir_entry stem,
            num_files := (st.num_files + 1) % 2 ^ 32,
            plans := st.plans ++ [plan_for st dir_entry stem],
            renames := st.renames ++ [(dir_entry, (plan_for st dir_entry stem).dst)],
            terminated := false } := by
  have hd := new_stem_from_exif_no_dot hs
  have hP := tentative_path dir_entry hd
  have hR := reserve_eq st.new_paths st.disk dir_entry hd
  rw [hP] at hR
  unfold loop_body
  simp only [hnt, hf, hs, hP, hR, if_neg hne, Bool.false_eq_true, if_false]
  rfl

/-- The pass of the loop for a regular file whose tentative path is its own. -/
theorem loop_body_skip {uninit : Tm} {st : State} {dir_entry : Path} {f : File} {stem : Text}
    (hf : fs_find dir_entry st.disk = some (.regular f))
    (hs : new_stem_from_exif uninit f = some stem)
    (he : make_path_from_stem dir_entry (stem ++ "_1".toList) = dir_entry) :
    loop_body uninit st dir_entry = st := by
  unfold loop_body
  split_ifs
  · rfl
  · simp only [hf, hs, he, if_true]

/-- The ways a pass of the loop can go. -/
theorem loop_body_cases (uninit : Tm) (st : State) (dir_entry : Path) :
    loop_body uninit st dir_entry = st ∨
    loop_body uninit st dir_entry = { st with terminated := true } ∨
    ∃ f stem, st.terminated = false ∧ fs_find dir_entry st.disk = some (.regular f) ∧
      new_stem_from_exif uninit f = some stem ∧
      numbered dir_entry.parent stem 1 (extension dir_entry.filename) ≠ dir_entry ∧
      ((fs_rename dir_entry (plan_for st dir_entry stem).dst st.disk = none ∧
          loop_body uninit st dir_entry
            = { st with new_paths := table_for st dir_entry stem,
                        plans := st.plans ++ [plan_for st dir_entry stem],
                        terminated := true }) ∨
        ∃ disk, fs_rename dir_entry (plan_for st dir_entry stem).dst st.disk = some disk ∧
          loop_body uninit st dir_entry
            = { disk := disk, new_paths := table_for st dir_entry stem,
                num_files := (st.num_files + 1) % 2 ^ 32,
                plans := st.plans ++ [plan_for st dir_entry stem],
                renames := st.renames ++ [(dir_entry, (plan_for st dir_entry stem).dst)],
                terminated := false }) := by
  by_cases hnt : st.terminated = true
  · left; unfold loop_body; rw [if_pos hnt]
  have hnt' : st.terminated = false := by simpa using hnt
  cases hf : fs_find dir_entry st.disk with
  | none => left; unfold loop_body; simp [hf]
  | some n =>
    cases n with
    | directory => left; unfold loop_body; simp [hf]
    | regular f =>
      cases hs : new_stem_from_exif uninit f with
      | none => right; left; unfold loop_body; simp [hf, hs, hnt']
      | some stem =>
        by_cases he : make_path_from_stem dir_entry (stem ++ "_1".toList) = dir_entry
        · left; exact loop_body_skip hf hs he
        · right; right
          have hd := new_stem_from_exif_no_dot hs
          rw [tentative_path dir_entry hd] at he
          refine ⟨f, stem, hnt', rfl, hs, he, ?_⟩
          have hp := loop_body_pass hnt' hf hs he
          cases hr : fs_rename dir_entry (plan_for st dir_entry stem).dst st.disk with
          | none => left; rw [hr] at hp; exact ⟨rfl, hp⟩
          | some disk => right; rw [hr] at hp; exact ⟨disk, rfl, hp⟩

/-- The pass of the loop for a regular file that is given a free name: the file is
renamed, the table and the count of files are updated. -/
theorem loop_body_renames (uninit : Tm) (st : State) (dir_entry : Path) (f : File)
    (stem : Text) (n : Nat)
    (hnt : st.terminated = false) (hf : fs_find dir_entry st.disk = some (.regular f))
    (hs : new_stem_from_exif uninit f = some stem)
    (hne : numbered dir_entry.parent stem 1 (extension dir_entry.filename) ≠ dir_entry)
    (hn : count_after st.new_paths st.disk
      (numbered dir_entry.parent stem 1 (extension dir_entry.filename)) = n)
    (hfree : fs_find (numbered dir_entry.parent stem n (extension dir_entry.filename))
      st.disk = none) :
    loop_body uninit st dir_entry
      = { disk := replace_name dir_entry
            (numbered dir_entry.parent stem n (extension dir_entry.filename)) st.disk,
          new_paths := fun p =>
            if p = numbered dir_entry.parent stem 1 (extension dir_entry.filename)
            then some n else st.new_paths p,
          num_files := (st.num_files + 1) % 2 ^ 32,
          plans := st.plans ++ [plan_for st dir_entry stem],
          renames := st.renames
            ++ [(dir_entry, numbered dir_entry.parent stem n (extension dir_entry.filename))],
          terminated := false } := by
  have hdst : (plan_for st dir_entry stem).dst
      = numbered dir_entry.parent stem n (extension dir_entry.filename) := by
    simp only [plan_for, hn]
  have hne2 : dir_entry ≠ numbered dir_entry.parent stem n (extension dir_entry.filename) := by
    intro e
    rw [← e, hf] at hfree
    cases hfree
  have hr := fs_rename_ok hf hne2 (by rw [hfree]; simp)
  have ht : table_for st dir_entry stem = fun p =>
      if p = numbered dir_entry.parent stem 1 (extension dir_entry.filename)
      then some n else st.new_paths p := by
    funext p
    simp only [table_for, plan_for, hn]
  rw [loop_body_pass hnt hf hs hne, hdst, hr, ht]

theorem numbered_count_eq {dir stem ext : Text} {n m : Nat}
    (h : numbered dir stem n ext = numbered dir stem m ext) : decimal n = decimal m := by
  simp only [numbered, Path.mk.injEq, true_and] at h
  have h1 := List.append_cancel_right h
  have h2 := List.append_cancel_left h1
  exact (List.cons.inj h2).2

/-- C1 (as amended): three regular files A, B, C of one directory with the same
extension and the same resolved stem S, processed in the order A, B, C from an empty
table, with no file named `S_1.ext`, `S_2.ext` or `S_3.ext` in the directory: the run
renames A to `S_1.ext`, B to `S_2.ext` and C to `S_3.ext`, and counts three files. -/
theorem three_files_same_stem (uninit : Tm) (disk : Disk) (A B C : Path) (fA fB fC : File)
    (stem : Text)
    (hA : fs_find A disk = some (.regular fA)) (hB : fs_find B disk = some (.regular fB))
    (hC : fs_find C disk = some (.regular fC))
    (hAB : A ≠ B) (hAC : A ≠ C) (hBC : B ≠ C)
    (hBdir : B.parent = A.parent) (hCdir : C.parent = A.parent)
    (hBext : extension B.filename = extension A.filename)
    (hCext : extension C.filename = extension A.filename)
    (hsA : new_stem_from_exif uninit fA = some stem)
    (hsB : new_stem_from_exif uninit fB = some stem)
    (hsC : new_stem_from_exif uninit fC = some stem)
    (free1 : fs_find (numbered A.parent stem 1 (extension A.filename)) disk = none)
    (free2 : fs_find (numbered A.parent stem 2 (extension A.filename)) disk = none)
    (free3 : fs_find (numbered A.parent stem 3 (extension A.filename)) disk = none) :
    (run uninit [A, B, C] (State.initial disk)).renames
        = [(A, numbered A.parent stem 1 (extension A.filename)),
           (B, numbered A.parent stem 2 (extension A.filename)),
           (C, numbered A.parent stem 3 (extension A.filename))] ∧
      (run uninit [A, B, C] (State.initial disk)).num_files = 3 ∧
      (run uninit [A, B, C] (State.initial disk)).terminated = false ∧
      fs_find (numbered A.parent stem 1 (extension A.filename))
        (run uninit [A, B, C] (State.initial disk)).disk = some (.regular fA) ∧
      fs_find (numbered A.parent stem 2 (extension A.filename))
        (run uninit [A, B, C] (State.initial disk)).disk = some (.regular fB) ∧
      fs_find (numbered A.parent stem 3 (extension A.filename))
        (run uninit [A, B, C] (State.initial disk)).disk = some (.regular fC) := by
  have d12 : numbered A.parent stem 1 (extension A.filename)
      ≠ numbered A.parent stem 2 (extension A.filename) :=
    fun e => absurd (numbered_count_eq e) (by decide)
  have d13 : numbered A.parent stem 1 (extension A.filename)
      ≠ numbered A.parent stem 3 (extension A.filename) :=
    fun e => absurd (numbered_count_eq e) (by decide)
  have d23 : numbered A.parent stem 2 (extension A.filename)
      ≠ numbered A.parent stem 3 (extension A.filename) :=
    fun e => absurd (numbered_count_eq e) (by decide)
  have ne_of : ∀ {p q : Path} {g : File}, fs_find p disk = some (.regular g) →
      fs_find q disk = none → p ≠ q := by
    intro p q g hp hq e
    rw [e, hq] at hp
    cases hp
  -- first pass
  have s1 := loop_body_renames uninit (State.initial disk) A fA stem 1
    rfl hA hsA (ne_of hA free1).symm
    (by rw [count_after_none rfl]; simp [fs_exists, State.initial, free1]) free1
  generalize hst1 : loop_body uninit (State.initial disk) A = st1 at s1
  have f1 : ∀ p, fs_find p st1.disk
      = if p = numbered A.parent stem 1 (extension A.filename) then some (.regular fA)
        else if p = A then none else fs_find p disk := by
    intro p
    rw [s1]
    simp only [State.initial]
    rw [fs_find_replace_name _ _ _ _ (ne_of hA free1), hA]
  -- second pass
  have s2 := loop_body_renames uninit st1 B fB stem 2 (by rw [s1])
    (by rw [f1, if_neg (ne_of hB free1), if_neg (Ne.symm hAB), hB]) hsB
    (by rw [hBdir, hBext]; exact (ne_of hB free1).symm)
    (by rw [hBdir, hBext, count_after_some (c := 1)]; rw [s1]; simp)
    (by rw [hBdir, hBext, f1, if_neg d12.symm, if_neg (ne_of hA free2).symm, free2])
  rw [hBdir, hBext] at s2
  generalize hst2 : loop_body uninit st1 B = st2 at s2
  have f2 : ∀ p, fs_find p st2.disk
      = if p = numbered A.parent stem 2 (extension A.filename) then some (.regular fB)
        else if p = B then none else fs_find p st1.disk := by
    intro p
    rw [s2]
    simp only
    rw [fs_find_replace_name _ _ _ _ (ne_of hB free2),
      f1 B, if_neg (ne_of hB free1), if_neg (Ne.symm hAB), hB]
  -- third pass
  have s3 := loop_body_renames uninit st2 C fC stem 3 (by rw [s2])
    (by rw [f2, if_neg (ne_of hC free2), if_neg (Ne.symm hBC), f1,
          if_neg (ne_of hC free1), if_neg (Ne.symm hAC), hC]) hsC
    (by rw [hCdir, hCext]; exact (ne_of hC free1).symm)
    (by rw [hCdir, hCext, count_after_some (c := 2)]; rw [s2]; simp)
    (by rw [hCdir, hCext, f2, if_neg d23.symm, if_neg (ne_of hB free3).symm, f1,
          if_neg d13.symm, if_neg (ne_of hA free3).symm, free3])
  rw [hCdir, hCext] at s3
  have hrun : run uninit [A, B, C] (State.initial disk) = loop_body uninit st2 C := by
    simp only [run, List.foldl, hst1, hst2]
  have f3 : ∀ p, fs_find p (loop_body uninit st2 C).disk
      = if p = numbered A.parent stem 3 (extension A.filename) then some (.regular fC)
        else if p = C then none else fs_find p st2.disk := by
    intro p
    rw [s3]
    simp only
    rw [fs_find_replace_name _ _ _ _ (ne_of hC free3),
      f2 C, if_neg (ne_of hC free2), if_neg (Ne.symm hBC), f1,
      if_neg (ne_of hC free1), if_neg (Ne.symm hAC), hC]
  rw [hrun]
  refine ⟨?_, ?_, ?_, ?_, ?_, ?_⟩
  · rw [s3, s2, s1]; rfl
  · rw [s3, s2, s1]; rfl
  · rw [s3]
  · rw [f3, if_neg d13, if_neg (ne_of hC free1).symm, f2, if_neg d12,
      if_neg (ne_of hB free1).symm, f1, if_pos rfl]
  · rw [f3, if_neg d23, if_neg (ne_of hC free2).symm, f2, if_pos rfl]
  · rw [f3, if_pos rfl]

/-! ## The count in a name can be read back -/

theorem read_digits_decimalAux (fuel : Nat) : ∀ (n : Nat) (acc : Text), n < fuel →
    read_digits 0 (decimalAux fuel n acc) = read_digits n acc := by
  induction fuel with
  | zero => intro n acc h; omega
  | succ fuel ih =>
    intro n acc h
    have hd : n % 10 < 10 := Nat.mod_lt _ (by decide)
    unfold decimalAux
    split_ifs with h0
    · have : n < 10 := by omega
      simp only [read_digits, List.foldl_cons, toNat_digitChar hd]
      congr 1
      omega
    · rw [ih _ _ (by omega)]
      simp only [read_digits, List.foldl_cons, toNat_digitChar hd]
      congr 1
      omega

theorem read_digits_decimal (n : Nat) : read_digits 0 (decimal n) = n := by
  unfold decimal
  rw [read_digits_decimalAux _ _ _ (Nat.lt_succ_self n)]
  rfl

theorem decimal_injective {n m : Nat} (h : decimal n = decimal m) : n = m := by
  have := congrArg (read_digits 0) h
  rwa [read_digits_decimal, read_digits_decimal] at this

/-- Two texts that agree, each split at a character that does not occur before the
split, agree part by part. -/
theorem split_at_first {c : Char} : ∀ (a a' b b' : Text), c ∉ a → c ∉ a' →
    a ++ c :: b = a' ++ c :: b' → a = a' ∧ b = b' := by
  intro a
  induction a with
  | nil =>
    intro a' b b' _ ha' e
    cases a' with
    | nil => exact ⟨rfl, (List.cons.inj e).2⟩
    | cons x xs => exact absurd ((List.cons.inj e).1 ▸ List.mem_cons_self _ _) ha'
  | cons y ys ih =>
    intro a' b b' ha ha' e
    cases a' with
    | nil => exact absurd ((List.cons.inj e).1 ▸ List.mem_cons_self _ _) ha
    | cons x xs =>
      have e1 := List.cons.inj e
      obtain ⟨r1, r2⟩ := ih xs b b' (fun m => ha (List.mem_cons_of_mem _ m))
        (fun m => ha' (List.mem_cons_of_mem _ m)) e1.2
      exact ⟨by rw [e1.1, r1], r2⟩

/-- The same for a split at a character that does not occur after the split. -/
theorem split_at_last {c : Char} {s s' t t' : Text} (ht : c ∉ t) (ht' : c ∉ t')
    (h : s ++ c :: t = s' ++ c :: t') : s = s' ∧ t = t' := by
  have h2 := congrArg List.reverse h
  simp only [List.reverse_append, List.reverse_cons, List.append_assoc, List.singleton_append]
    at h2
  obtain ⟨r1, r2⟩ := split_at_first t.reverse t'.reverse s.reverse s'.reverse
    (by simpa using ht) (by simpa using ht') h2
  exact ⟨List.reverse_injective r2, List.reverse_injective r1⟩

/-- Two texts without a dot followed by extensions agree part by part. -/
theorem split_at_extension {s s' e e' : Text} (hs : '.' ∉ s) (hs' : '.' ∉ s')
    (he : is_extension e) (he' : is_extension e') (h : s ++ e = s' ++ e') :
    s = s' ∧ e = e' := by
  have key : ∀ (a a' : Text) (r' : Text), '.' ∉ a → a = a' ++ '.' :: r' → False := by
    intro a a' r' ha e
    apply ha
    rw [e]
    simp
  rcases he with rfl | ⟨r, rfl, _⟩ <;> rcases he' with rfl | ⟨r', rfl, _⟩
  · simpa using h
  · exact (key s s' r' hs (by simpa using h)).elim
  · exact (key s' s r hs' (by simpa using h.symm)).elim
  · obtain ⟨r1, r2⟩ := split_at_first s s' r r' hs hs' h
    exact ⟨r1, by rw [r2]⟩

/-- The path `dir/stem_N.ext` determines the directory, the stem, the count and the
extension. -/
theorem numbered_injective {dir dir' stem stem' ext ext' : Text} {n n' : Nat}
    (hs : '.' ∉ stem) (hs' : '.' ∉ stem') (he : is_extension ext) (he' : is_extension ext')
    (h : numbered dir stem n ext = numbered dir' stem' n' ext') :
    dir = dir' ∧ stem = stem' ∧ n = n' ∧ ext = ext' := by
  simp only [numbered, Path.mk.injEq] at h
  obtain ⟨hd, hf⟩ := h
  obtain ⟨h1, h2⟩ := split_at_extension (no_dot_suffix hs n) (no_dot_suffix hs' n') he he' hf
  obtain ⟨h3, h4⟩ := split_at_last (decimal_no_underscore n) (decimal_no_underscore n') h1
  exact ⟨hd, h3, decimal_injective h4, h2⟩

/-! ## Invariants of the run -/

theorem run_cons (uninit : Tm) (e : Path) (es : List Path) (st : State) :
    run uninit (e :: es) st = run uninit es (loop_body uninit st e) := rfl

/-- A property of the initial state that every pass keeps holds after the run. -/
theorem run_induction (uninit : Tm) (Q : State → Prop)
    (step : ∀ st e, Q st → Q (loop_body uninit st e)) :
    ∀ (entries : List Path) (st : State), Q st → Q (run uninit entries st) := by
  intro entries
  induction entries with
  | nil => intro st h; exact h
  | cons e es ih => intro st h; exact ih _ (step st e h)

theorem plans_ok_initial (disk : Disk) : plans_ok (State.initial disk) := by
  refine ⟨?_, ?_, ?_⟩
  · intro pl h; cases h
  · exact List.Pairwise.nil
  · exact List.Sublist.refl _

theorem count_after_gt {new_paths : ClaimTable} (disk : Disk) {new_path : Path} {c : Nat}
    (h : new_paths new_path = some c) : c < count_after new_paths disk new_path := by
  rw [count_after_some h]; omega

/-- The plans after a pass that made a plan. -/
theorem plans_ok_pass {st : State} (dir_entry : Path) {stem : Text} (hd : '.' ∉ stem)
    (h : plans_ok st) :
    (∀ pl ∈ st.plans ++ [plan_for st dir_entry stem], ∃ (e : Path) (s : Text),
        '.' ∉ s ∧ pl.base = numbered e.parent s 1 (extension e.filename) ∧
        pl.dst = numbered e.parent s pl.count (extension e.filename) ∧
        ∃ c, table_for st dir_entry stem pl.base = some c ∧ pl.count ≤ c) ∧
    (st.plans ++ [plan_for st dir_entry stem]).Pairwise
      (fun p q => p.base = q.base → p.count < q.count) := by
  obtain ⟨h1, h2, _⟩ := h
  constructor
  · intro pl hpl
    rcases List.mem_append.1 hpl with hpl | hpl
    · obtain ⟨e, s, hs, hb, hdst, c, hc, hle⟩ := h1 pl hpl
      refine ⟨e, s, hs, hb, hdst, ?_⟩
      unfold table_for
      by_cases hbase : pl.base = (plan_for st dir_entry stem).base
      · rw [if_pos hbase]
        refine ⟨_, rfl, ?_⟩
        have : c < (plan_for st dir_entry stem).count := by
          have hc' : st.new_paths (numbered dir_entry.parent stem 1
              (extension dir_entry.filename)) = some c := by
            rw [← hc, hbase]; rfl
          exact count_after_gt st.disk hc'
        omega
      · rw [if_neg hbase]
        exact ⟨c, hc, hle⟩
    · rw [List.mem_singleton] at hpl
      subst hpl
      refine ⟨dir_entry, stem, hd, rfl, rfl, _, ?_, le_refl _⟩
      unfold table_for
      rw [if_pos rfl]
  · rw [List.pairwise_append]
    refine ⟨h2, List.pairwise_singleton _ _, ?_⟩
    intro a ha b hb hbase
    rw [List.mem_singleton] at hb
    subst hb
    obtain ⟨e, s, hs, hb, hdst, c, hc, hle⟩ := h1 a ha
    have hc' : st.new_paths (numbered dir_entry.parent stem 1
        (extension dir_entry.filename)) = some c := by
      rw [← hc, hbase]; rfl
    have := count_after_gt st.disk hc'
    show a.count < count_after _ _ _
    omega

theorem plans_ok_step (uninit : Tm) (st : State) (e : Path) (h : plans_ok st) :
    plans_ok (loop_body uninit st e) := by
  rcases loop_body_cases uninit st e with h0 | h0 | ⟨f, stem, _, _, hs, _, h0⟩
  · rw [h0]; exact h
  · rw [h0]; exact h
  · have hd := new_stem_from_exif_no_dot hs
    obtain ⟨p1, p2⟩ := plans_ok_pass e hd h
    rcases h0 with ⟨_, h0⟩ | ⟨disk, _, h0⟩
    · rw [h0]
      refine ⟨p1, p2, ?_⟩
      simp only [List.map_append]
      exact h.2.2.trans (List.sublist_append_left _ _)
    · rw [h0]
      refine ⟨p1, p2, ?_⟩
      simp only [List.map_append, List.map_cons, List.map_nil]
      exact List.Sublist.append h.2.2 (List.Sublist.refl _)

theorem plans_ok_run (uninit : Tm) (entries : List Path) (disk : Disk) :
    plans_ok (run uninit entries (State.initial disk)) :=
  run_induction uninit plans_ok (plans_ok_step uninit) entries _ (plans_ok_initial disk)

/-- Plans that are in order and name `dir/stem_N.ext` have different destinations. -/
theorem plans_ok_nodup {st : State} (h : plans_ok st) :
    (st.plans.map Plan.dst).Nodup := by
  obtain ⟨h1, h2, _⟩ := h
  unfold List.Nodup
  rw [List.pairwise_map]
  refine List.Pairwise.imp_of_mem ?_ h2
  intro p q hp hq hlt hdst
  obtain ⟨e, s, hs, hb, hd, _⟩ := h1 p hp
  obtain ⟨e', s', hs', hb', hd', _⟩ := h1 q hq
  rw [hd, hd'] at hdst
  obtain ⟨r1, r2, r3, r4⟩ := numbered_injective hs hs' (extension_is_extension _)
    (extension_is_extension _) hdst
  have : p.base = q.base := by rw [hb, hb', r1, r2, r4]
  have := hlt this
  omega

/-- C10: within one run, from an empty table, over any entries: a later pass for the
same tentative path records a strictly larger count; the final path is an injective
function of the directory, the stem (without a dot), the extension and the count; and
no two planned destinations, hence no two performed renames, are the same path. -/
theorem destinations_distinct (uninit : Tm) (entries : List Path) (disk : Disk) :
    (run uninit entries (State.initial disk)).plans.Pairwise
        (fun p q => p.base = q.base → p.count < q.count) ∧
      (∀ (e e' : Path) (stem stem' : Text) (n n' : Nat), '.' ∉ stem → '.' ∉ stem' →
        1 ≤ n → 1 ≤ n' →
        final_path (make_path_from_stem e (stem ++ "_1".toList)) stem n
          = final_path (make_path_from_stem e' (stem' ++ "_1".toList)) stem' n' →
        e.parent = e'.parent ∧ stem = stem' ∧
          extension e.filename = extension e'.filename ∧ n = n') ∧
      ((run uninit entries (State.initial disk)).plans.map Plan.dst).Nodup ∧
      ((run uninit entries (State.initial disk)).renames.map Prod.snd).Nodup := by
  have h := plans_ok_run uninit entries disk
  refine ⟨h.2.1, ?_, plans_ok_nodup h, (plans_ok_nodup h).sublist h.2.2⟩
  intro e e' stem stem' n n' hs hs' hn hn' heq
  rw [final_path_eq e hs hn, final_path_eq e' hs' hn'] at heq
  obtain ⟨r1, r2, r3, r4⟩ := numbered_injective hs hs' (extension_is_extension _)
    (extension_is_extension _) heq
  exact ⟨r1, r2, r4, r3⟩

/-! ## The counts of the table -/

theorem passes_for_append (K : Path) (plans : List Plan) (pl : Plan) :
    passes_for K (plans ++ [pl]) = passes_for K plans + if pl.base = K then 1 else 0 := by
  unfold passes_for
  rw [List.filter_append, List.length_append]
  by_cases h : pl.base = K <;> simp [List.filter, h]

theorem found_on_disk_append (K : Path) (plans : List Plan) (pl : Plan) :
    found_on_disk K (plans ++ [pl])
      = (found_on_disk K plans || (pl.base = K && pl.inserted && pl.on_disk)) := by
  unfold found_on_disk
  simp [List.any_append]

theorem counts_ok_initial (disk : Disk) : counts_ok (State.initial disk) := by
  intro K
  constructor
  · intro c h; cases h
  · intro _; exact ⟨rfl, rfl⟩

theorem counts_ok_pass {st : State} (dir_entry : Path) (stem : Text) (h : counts_ok st) :
    ∀ K, (∀ c, table_for st dir_entry stem K = some c →
          1 ≤ c ∧ c = passes_for K (st.plans ++ [plan_for st dir_entry stem])
            + if found_on_disk K (st.plans ++ [plan_for st dir_entry stem]) then 1 else 0) ∧
       (table_for st dir_entry stem K = none →
          passes_for K (st.plans ++ [plan_for st dir_entry stem]) = 0 ∧
          found_on_disk K (st.plans ++ [plan_for st dir_entry stem]) = false) := by
  intro K
  obtain ⟨hK1, hK2⟩ := h K
  rw [passes_for_append, found_on_disk_append]
  by_cases hb : K = (plan_for st dir_entry stem).base
  · have hb' : (plan_for st dir_entry stem).base = K := hb.symm
    have ht : table_for st dir_entry stem K = some (plan_for st dir_entry stem).count := by
      unfold table_for; rw [if_pos hb]
    rw [ht]
    constructor
    · intro c hc
      cases hc
      refine ⟨count_after_pos _ _ _, ?_⟩
      cases hn : st.new_paths K with
      | none =>
        obtain ⟨z1, z2⟩ := hK2 hn
        have hn' : st.new_paths (numbered dir_entry.parent stem 1
            (extension dir_entry.filename)) = none := by rw [← hn, hb]; rfl
        have hc : (plan_for st dir_entry stem).count
            = if fs_exists (numbered dir_entry.parent stem 1
                (extension dir_entry.filename)) st.disk then 2 else 1 :=
          count_after_none hn'
        have hi : (plan_for st dir_entry stem).inserted = true := by
          simp [plan_for, hn']
        have ho : (plan_for st dir_entry stem).on_disk
            = fs_exists (numbered dir_entry.parent stem 1
                (extension dir_entry.filename)) st.disk := rfl
        rw [hc, z1, z2, hi, ho]
        simp only [hb', decide_True, Bool.true_and, Bool.false_or, if_true]
        cases fs_exists (numbered dir_entry.parent stem 1
                (extension dir_entry.filename)) st.disk <;> simp
      | some c0 =>
        obtain ⟨_, z⟩ := hK1 c0 hn
        have hn' : st.new_paths (numbered dir_entry.parent stem 1
            (extension dir_entry.filename)) = some c0 := by rw [← hn, hb]; rfl
        have hc : (plan_for st dir_entry stem).count = c0 + 1 := count_after_some hn'
        have hi : (plan_for st dir_entry stem).inserted = false := by
          simp [plan_for, hn']
        rw [hc, hi]
        simp only [hb', decide_True, Bool.true_and, Bool.false_and, Bool.or_false, if_true]
        omega
    · intro hc; cases hc
  · have hb' : ¬ (plan_for st dir_entry stem).base = K := fun e => hb e.symm
    have ht : table_for st dir_entry stem K = st.new_paths K := by
      unfold table_for; rw [if_neg hb]
    rw [ht]
    simp only [hb', decide_False, Bool.false_and, Bool.or_false, if_false, add_zero]
    exact ⟨hK1, hK2⟩

theorem counts_ok_step (uninit : Tm) (st : State) (e : Path) (h : counts_ok st) :
    counts_ok (loop_body uninit st e) := by
  rcases loop_body_cases uninit st e with h0 | h0 | ⟨f, stem, _, _, _, _, h0⟩
  · rw [h0]; exact h
  · rw [h0]; exact h
  · rcases h0 with ⟨_, h0⟩ | ⟨disk, _, h0⟩
    · rw [h0]; exact counts_ok_pass e stem h
    · rw [h0]; exact counts_ok_pass e stem h

/-- C9: after the loop has processed any entries from an empty table, every path `K` of
the table has a count of at least 1, and the count is the number of passes whose final
path was computed for `K`, plus 1 if a file named `K` was on disk at the pass that
inserted `K`. -/
theorem claim_table_counts (uninit : Tm) (entries : List Path) (disk : Disk) (K : Path)
    (c : Nat) (h : (run uninit entries (State.initial disk)).new_paths K = some c) :
    1 ≤ c ∧
      c = passes_for K (run uninit entries (State.initial disk)).plans
          + if found_on_disk K (run uninit entries (State.initial disk)).plans
            then 1 else 0 :=
  (run_induction uninit counts_ok (counts_ok_step uninit) entries _
    (counts_ok_initial disk) K).1 c h

/-! ## A second run -/

theorem loop_body_terminated {uninit : Tm} {st : State} (e : Path)
    (h : st.terminated = true) : loop_body uninit st e = st := by
  unfold loop_body
  rw [if_pos h]

theorem run_terminated {uninit : Tm} (entries : List Path) {st : State}
    (h : st.terminated = true) : run uninit entries st = st := by
  induction entries with
  | nil => rfl
  | cons e es ih => rw [run_cons, loop_body_terminated e h, ih]

theorem run_not_terminated {uninit : Tm} {entries : List Path} {st : State}
    (h : (run uninit entries st).terminated = false) : st.terminated = false := by
  cases ht : st.terminated with
  | false => rfl
  | true => rw [run_terminated entries ht, ht] at h; cases h

theorem loop_body_plans (uninit : Tm) (st : State) (e : Path) :
    ∀ pl ∈ st.plans, pl ∈ (loop_body uninit st e).plans := by
  intro pl hpl
  rcases loop_body_cases uninit st e with h0 | h0 | ⟨f, stem, _, _, _, _, h0⟩
  · rw [h0]; exact hpl
  · rw [h0]; exact hpl
  · rcases h0 with ⟨_, h0⟩ | ⟨disk, _, h0⟩ <;> rw [h0] <;>
      exact List.mem_append_left _ hpl

theorem run_plans (uninit : Tm) (entries : List Path) :
    ∀ (st : State), ∀ pl ∈ st.plans, pl ∈ (run uninit entries st).plans := by
  induction entries with
  | nil => intro st pl h; exact h
  | cons e es ih =>
    intro st pl h
    exact ih _ pl (loop_body_plans uninit st e pl h)

/-- On a disk whose regular files are all settled a pass changes nothing. -/
theorem loop_body_settled {uninit : Tm} {st : State} (e : Path)
    (h : ∀ p f, fs_find p st.disk = some (.regular f) → settled uninit p f) :
    loop_body uninit st e = st := by
  cases hf : fs_find e st.disk with
  | none => unfold loop_body; simp [hf]
  | some n =>
    cases n with
    | directory => unfold loop_body; simp [hf]
    | regular f =>
      obtain ⟨stem, hs, he⟩ := h e f hf
      exact loop_body_skip hf hs he

theorem run_settled {uninit : Tm} (entries : List Path) {st : State}
    (h : ∀ p f, fs_find p st.disk = some (.regular f) → settled uninit p f) :
    run uninit entries st = st := by
  induction entries with
  | nil => rfl
  | cons e es ih => rw [run_cons, loop_body_settled e h, ih]

theorem fs_rename_some {old_p new_p : Path} {d d' : Disk} (hne : old_p ≠ new_p)
    (h : fs_rename old_p new_p d = some d') : d' = replace_name old_p new_p d := by
  unfold fs_rename at h
  split at h
  · rw [if_neg hne] at h
    split at h
    · cases h
    · cases h; rfl
  · cases h

/-- A file that was given the name `dir/stem_1.ext` is settled. -/
theorem settled_numbered {uninit : Tm} {e : Path} {f : File} {stem : Text}
    (hs : new_stem_from_exif uninit f = some stem) :
    settled uninit (numbered e.parent stem 1 (extension e.filename)) f := by
  have hd := new_stem_from_exif_no_dot hs
  refine ⟨stem, hs, ?_⟩
  have := recomputed_path e hd 1
  rw [tentative_path e hd] at this
  exact this

/-- While every plan has count 1, each regular file on disk is settled or still to be
visited. -/
theorem pending_step {uninit : Tm} {st : State} {e : Path} {rest : List Path}
    (h : ∀ p f, fs_find p st.disk = some (.regular f) → settled uninit p f ∨ p ∈ e :: rest)
    (hnt : (loop_body uninit st e).terminated = false)
    (hone : ∀ pl ∈ (loop_body uninit st e).plans, pl.count = 1) :
    ∀ p f, fs_find p (loop_body uninit st e).disk = some (.regular f) →
      settled uninit p f ∨ p ∈ rest := by
  have keep : loop_body uninit st e = st →
      (∀ f, fs_find e st.disk = some (.regular f) → settled uninit e f) →
      ∀ p f, fs_find p (loop_body uninit st e).disk = some (.regular f) →
        settled uninit p f ∨ p ∈ rest := by
    intro h0 he p f hp
    rw [h0] at hp
    rcases h p f hp with hset | hmem
    · exact Or.inl hset
    · rcases List.mem_cons.1 hmem with rfl | hmem
      · exact Or.inl (he f hp)
      · exact Or.inr hmem
  by_cases ht : st.terminated = true
  · rw [loop_body_terminated e ht] at hnt
    rw [ht] at hnt; cases hnt
  have hnt0 : st.terminated = false := by simpa using ht
  cases hf : fs_find e st.disk with
  | none =>
    refine keep (by unfold loop_body; simp [hf]) ?_
    intro f hf'; rw [hf] at hf'; cases hf'
  | some n =>
    cases n with
    | directory =>
      refine keep (by unfold loop_body; simp [hf]) ?_
      intro f hf'; rw [hf] at hf'; cases hf'
    | regular f0 =>
      cases hs : new_stem_from_exif uninit f0 with
      | none =>
        have : (loop_body uninit st e).terminated = true := by
          unfold loop_body; simp [hf, hs, hnt0]
        rw [this] at hnt; cases hnt
      | some stem =>
        by_cases he : make_path_from_stem e (stem ++ "_1".toList) = e
        · refine keep (loop_body_skip hf hs he) ?_
          intro f hf'
          rw [hf] at hf'
          cases hf'
          exact ⟨stem, hs, he⟩
        · have hd := new_stem_from_exif_no_dot hs
          rw [tentative_path e hd] at he
          have hp := loop_body_pass hnt0 hf hs he
          cases hr : fs_rename e (plan_for st e stem).dst st.disk with
          | none =>
            rw [hr] at hp
            rw [hp] at hnt
            cases hnt
          | some disk =>
            rw [hr] at hp
            have hc : (plan_for st e stem).count = 1 := by
              apply hone
              rw [hp]
              exact List.mem_append_right _ (List.mem_singleton_self _)
            have hdst : (plan_for st e stem).dst
                = numbered e.parent stem 1 (extension e.filename) := by
              have : (plan_for st e stem).dst
                  = numbered e.parent stem (plan_for st e stem).count
                      (extension e.filename) := rfl
              rw [this, hc]
            rw [hdst] at hr
            have hdisk := fs_rename_some (Ne.symm he) hr
            intro p f hpf
            rw [hp] at hpf
            simp only at hpf
            rw [hdisk, fs_find_replace_name _ _ _ _ (Ne.symm he)] at hpf
            split_ifs at hpf with h1 h2
            · rw [hf] at hpf
              cases hpf
              rw [h1]
              exact Or.inl (settled_numbered hs)
            · rcases h p f hpf with hset | hmem
              · exact Or.inl hset
              · rcases List.mem_cons.1 hmem with hpe | hmem
                · exact absurd hpe h2
                · exact Or.inr hmem

theorem pending_run {uninit : Tm} (entries : List Path) : ∀ (st : State),
    (∀ p f, fs_find p st.disk = some (.regular f) → settled uninit p f ∨ p ∈ entries) →
    (run uninit entries st).terminated = false →
    (∀ pl ∈ (run uninit entries st).plans, pl.count = 1) →
    ∀ p f, fs_find p (run uninit entries st).disk = some (.regular f) →
      settled uninit p f := by
  induction entries with
  | nil =>
    intro st h _ _ p f hp
    rcases h p f hp with hset | hmem
    · exact hset
    · cases hmem
  | cons e es ih =>
    intro st h hnt hone
    rw [run_cons] at hnt hone ⊢
    exact ih _ (pending_step h (run_not_terminated hnt)
      (fun pl hpl => hone pl (run_plans uninit es _ pl hpl))) hnt hone

/-- C3 (as amended): if a first run over entries that cover every regular file completes
and every count it arrived at is 1 (no name needed a suffix other than `_1`), then a
second run over the resulting disk, in any order of any entries, changes nothing: no
rename, the count of files is 0 and the disk is the same. -/
theorem second_run_changes_nothing (uninit : Tm) (disk : Disk) (entries entries2 : List Path)
    (hall : ∀ p f, fs_find p disk = some (.regular f) → p ∈ entries)
    (hdone : (run uninit entries (State.initial disk)).terminated = false)
    (hone : ∀ pl ∈ (run uninit entries (State.initial disk)).plans, pl.count = 1) :
    run uninit entries2 (State.initial (run uninit entries (State.initial disk)).disk)
      = State.initial (run uninit entries (State.initial disk)).disk :=
  run_settled entries2
    (pending_run entries (State.initial disk) (fun p f h => Or.inr (hall p f h)) hdone hone)

/-- C1 (as stated) fails: of three photos of the same second, processed in the order
`a.jpg`, `b.jpg`, `c.jpg`, the first is renamed to `2023-05-01_10-00-00_1.jpg`; no file
is named `2023-05-01_10-00-00.jpg` after the run. -/
theorem first_file_gets_suffix_1 :
    (run zero_tm [in_photos "a.jpg", in_photos "b.jpg", in_photos "c.jpg"]
        (State.initial same_second)).renames
      = [(in_photos "a.jpg", in_photos "2023-05-01_10-00-00_1.jpg"),
         (in_photos "b.jpg", in_photos "2023-05-01_10-00-00_2.jpg"),
         (in_photos "c.jpg", in_photos "2023-05-01_10-00-00_3.jpg")] ∧
      fs_find (in_photos "2023-05-01_10-00-00.jpg")
        (run zero_tm [in_photos "a.jpg", in_photos "b.jpg", in_photos "c.jpg"]
          (State.initial same_second)).disk = none := by
  decide

/-- C3 (as stated) fails: the first run over `a.jpg`, `b.jpg` of the same second
completes and leaves `renamed_pair`; the second run over it renames
`2023-05-01_10-00-00_2.jpg` (to its own name) and reports one file, not zero. -/
theorem second_run_counts_a_file :
    (run zero_tm [in_photos "a.jpg", in_photos "b.jpg"]
        (State.initial [(in_photos "a.jpg", .regular (shot_at_ten [1])),
          (in_photos "b.jpg", .regular (created_at_ten [2]))])).terminated = false ∧
      (run zero_tm [in_photos "a.jpg", in_photos "b.jpg"]
        (State.initial [(in_photos "a.jpg", .regular (shot_at_ten [1])),
          (in_photos "b.jpg", .regular (created_at_ten [2]))])).disk = renamed_pair ∧
      (run zero_tm [in_photos "2023-05-01_10-00-00_1.jpg",
          in_photos "2023-05-01_10-00-00_2.jpg"] (State.initial renamed_pair)).num_files = 1 ∧
      (run zero_tm [in_photos "2023-05-01_10-00-00_1.jpg",
          in_photos "2023-05-01_10-00-00_2.jpg"] (State.initial renamed_pair)).renames
        = [(in_photos "2023-05-01_10-00-00_2.jpg", in_photos "2023-05-01_10-00-00_2.jpg")] := by
  decide

/-- C4 (the code departs from it): in `renamed_pair_and_new`, visited in the order
`0001.jpg`, `..._1.jpg`, `..._2.jpg`, the run completes; `0001.jpg` is renamed to
`2023-05-01_10-00-00_2.jpg` over the file of that name: of three regular files two are
left, and the bytes `[2]` are gone. -/
theorem run_replaces_a_file :
    (regular_files renamed_pair_and_new).map File.bytes = [[1], [2], [3]] ∧
      (run zero_tm [in_photos "0001.jpg", in_photos "2023-05-01_10-00-00_1.jpg",
          in_photos "2023-05-01_10-00-00_2.jpg"]
        (State.initial renamed_pair_and_new)).terminated = false ∧
      (run zero_tm [in_photos "0001.jpg", in_photos "2023-05-01_10-00-00_1.jpg",
          in_photos "2023-05-01_10-00-00_2.jpg"]
        (State.initial renamed_pair_and_new)).renames
        = [(in_photos "0001.jpg", in_photos "2023-05-01_10-00-00_2.jpg"),
           (in_photos "2023-05-01_10-00-00_2.jpg", in_photos "2023-05-01_10-00-00_3.jpg")] ∧
      (regular_files (run zero_tm [in_photos "0001.jpg", in_photos "2023-05-01_10-00-00_1.jpg",
          in_photos "2023-05-01_10-00-00_2.jpg"]
        (State.initial renamed_pair_and_new)).disk).map File.bytes = [[1], [3]] := by
  decide

/-- C8 (as stated) fails: for `2023-05-01_10-00-00_2.jpg` in `renamed_pair` the final
path is the file's own path, yet the pass adds the tentative path to the table with
count 2, calls `fs::rename` and counts the file. -/
theorem own_final_path_is_not_skipped :
    ((loop_body zero_tm (State.initial renamed_pair)
        (in_photos "2023-05-01_10-00-00_2.jpg")).plans.map Plan.dst)
      = [in_photos "2023-05-01_10-00-00_2.jpg"] ∧
      (State.initial renamed_pair).new_paths (in_photos "2023-05-01_10-00-00_1.jpg") = none ∧
      (loop_body zero_tm (State.initial renamed_pair)
        (in_photos "2023-05-01_10-00-00_2.jpg")).new_paths
          (in_photos "2023-05-01_10-00-00_1.jpg") = some 2 ∧
      (loop_body zero_tm (State.initial renamed_pair)
        (in_photos "2023-05-01_10-00-00_2.jpg")).renames
        = [(in_photos "2023-05-01_10-00-00_2.jpg", in_photos "2023-05-01_10-00-00_2.jpg")] ∧
      (loop_body zero_tm (State.initial renamed_pair)
        (in_photos "2023-05-01_10-00-00_2.jpg")).num_files = 1 := by
  decide

/-- C8 (as amended): if the tentative path `stem_1.ext` computed for a regular file is
the file's own path, the pass leaves the state as it is: no entry added to the table, no
count changed, no rename, no file counted. -/
theorem tentative_own_path_is_skipped (uninit : Tm) (st : State) (dir_entry : Path) (f : File)
    (stem : Text) (hf : fs_find dir_entry st.disk = some (.regular f))
    (hs : new_stem_from_exif uninit f = some stem)
    (he : make_path_from_stem dir_entry (stem ++ "_1".toList) = dir_entry) :
    loop_body uninit st dir_entry = st :=
  loop_body_skip hf hs he

theorem tentative_own_path_is_skipped_witness :
    loop_body zero_tm (State.initial renamed_pair) (in_photos "2023-05-01_10-00-00_1.jpg")
      = State.initial renamed_pair :=
  tentative_own_path_is_skipped zero_tm (State.initial renamed_pair)
    (in_photos "2023-05-01_10-00-00_1.jpg") (shot_at_ten [1]) "2023-05-01_10-00-00".toList
    (by decide) (by decide) (by decide)

theorem three_files_same_stem_witness :
    (run zero_tm [in_photos "a.jpg", in_photos "b.jpg", in_photos "c.jpg"]
        (State.initial same_second)).num_files = 3 ∧
      fs_find (in_photos "2023-05-01_10-00-00_2.jpg")
        (run zero_tm [in_photos "a.jpg", in_photos "b.jpg", in_photos "c.jpg"]
          (State.initial same_second)).disk = some (.regular (created_at_ten [2])) :=
  have h := three_files_same_stem zero_tm same_second (in_photos "a.jpg") (in_photos "b.jpg")
    (in_photos "c.jpg") (shot_at_ten [1]) (created_at_ten [2]) (created_at_ten [3])
    "2023-05-01_10-00-00".toList (by decide) (by decide) (by decide) (by decide) (by decide)
    (by decide) (by decide) (by decide) (by decide) (by decide) (by decide) (by decide)
    (by decide) (by decide) (by decide) (by decide)
  ⟨h.2.1, h.2.2.2.2.1⟩

theorem fs_find_mem {p : Path} {n : Node} : ∀ {d : Disk}, fs_find p d = some n →
    p ∈ d.map Prod.fst := by
  intro d
  induction d with
  | nil => intro h; cases h
  | cons e d ih =>
    obtain ⟨q, m⟩ := e
    intro h
    unfold fs_find at h
    split_ifs at h with hq
    · rw [hq]; exact List.mem_cons_self _ _
    · exact List.mem_cons_of_mem _ (ih h)

theorem second_run_changes_nothing_witness :
    run zero_tm [in_photos "2023-05-01_11-30-00_1.jpg", in_photos "2023-05-01_10-00-00_1.jpg"]
        (State.initial (run zero_tm [in_photos "a.jpg", in_photos "b.jpg"]
          (State.initial two_seconds)).disk)
      = State.initial (run zero_tm [in_photos "a.jpg", in_photos "b.jpg"]
          (State.initial two_seconds)).disk :=
  second_run_changes_nothing zero_tm two_seconds [in_photos "a.jpg", in_photos "b.jpg"]
    [in_photos "2023-05-01_11-30-00_1.jpg", in_photos "2023-05-01_10-00-00_1.jpg"]
    (fun _ _ h => fs_find_mem h) (by decide) (by decide)

theorem claim_table_counts_witness :
    1 ≤ 3 ∧
      3 = passes_for (in_photos "2023-05-01_10-00-00_1.jpg")
            (run zero_tm [in_photos "a.jpg", in_photos "b.jpg", in_photos "c.jpg"]
              (State.initial same_second)).plans
          + if found_on_disk (in_photos "2023-05-01_10-00-00_1.jpg")
              (run zero_tm [in_photos "a.jpg", in_photos "b.jpg", in_photos "c.jpg"]
                (State.initial same_second)).plans
            then 1 else 0 :=
  claim_table_counts zero_tm [in_photos "a.jpg", in_photos "b.jpg", in_photos "c.jpg"]
    same_second (in_photos "2023-05-01_10-00-00_1.jpg") 3 (by decide)

theorem destinations_distinct_witness :
    (in_photos "a.jpg").parent = (in_photos "b.jpg").parent ∧
      "2023-05-01_10-00-00".toList = "2023-05-01_10-00-00".toList ∧
      extension (in_photos "a.jpg").filename = extension (in_photos "b.jpg").filename ∧
      2 = 2 :=
  (destinations_distinct zero_tm [in_photos "a.jpg", in_photos "b.jpg", in_photos "c.jpg"]
    same_second).2.1 (in_photos "a.jpg") (in_photos "b.jpg") "2023-05-01_10-00-00".toList
    "2023-05-01_10-00-00".toList 2 2 (by decide) (by decide) (by decide) (by decide)
    (by decide)

theorem reserve_cases_witness :
    reserve (fun _ => none) [] (in_photos "2023-05-01_10-00-00_1.jpg")
        "2023-05-01_10-00-00".toList
      = (fun p => if p = in_photos "2023-05-01_10-00-00_1.jpg" then some 1 else none, 1,
         in_photos "2023-05-01_10-00-00_1.jpg") ∧
    (reserve (fun _ => none) renamed_pair (in_photos "2023-05-01_10-00-00_1.jpg")
        "2023-05-01_10-00-00".toList).2
      = (2, in_photos "2023-05-01_10-00-00_2.jpg") ∧
    (reserve (fun p => if p = in_photos "2023-05-01_10-00-00_1.jpg" then some 4 else none)
        [] (in_photos "2023-05-01_10-00-00_1.jpg") "2023-05-01_10-00-00".toList).2
      = (5, in_photos "2023-05-01_10-00-00_5.jpg") :=
  ⟨(reserve_cases (fun _ => none) [] (in_photos "a.jpg")
      (calendar_tm 2023 5 1 10 0 0)).2.1 rfl rfl,
   congrArg Prod.snd ((reserve_cases (fun _ => none) renamed_pair (in_photos "a.jpg")
      (calendar_tm 2023 5 1 10 0 0)).2.2.1 rfl rfl),
   congrArg Prod.snd ((reserve_cases
      (fun p => if p = in_photos "2023-05-01_10-00-00_1.jpg" then some 4 else none) []
      (in_photos "a.jpg") (calendar_tm 2023 5 1 10 0 0)).2.2.2.1 4 rfl)⟩

end Pixrn
